import Mathlib

/-!
Verification of the grid-based map editor implemented in `src/ts/map.ts`.

The editor keeps a fixed grid of tiles (DOM `div` elements carrying
`data-row` / `data-col` attributes), a list of currently selected tiles,
a clipboard of copied tile data, and a linear history of full-grid
snapshots with a cursor.  This file gives a shallow embedding of that
state and of the operations `drawMap`, `selectNextTile`, `copySelected`,
`cutSelected`, `paste`, `addToHistory`, `restoreFromHistory`, `undo`,
`redo`, `createMapJSON`, `loadMapFromFile`, the selection passes of
`selectTiles` and of the `mousedown` handler, and the `Delete` key
handler, and proves the specification claims about them.

Modelling conventions, all taken from the source:
* a tile's mutable state is its inline `style.background` shorthand, its
  inline `style.backgroundPosition` longhand, and whether its class list
  contains `"selected"`;
* assigning the `background` shorthand resets the `background-position`
  longhand (CSS shorthand assignment sets omitted longhands to their
  initial value, recorded here as the keyword string `"initial"`;
  assigning the empty string removes the declarations);
* `getComputedStyle(tile).backgroundPosition` resolves an absent or
  `initial` inline position to the initial value, serialized `"0% 0%"`;
* the grid's tiles are created once, row-major, and never added or
  removed, so `document.querySelectorAll(".tile")` (or `"div.tile"`)
  enumerates exactly the row-major positions of the fixed grid, and
  `querySelector` by `data-row`/`data-col` succeeds exactly for
  in-bounds coordinates;
* pixel geometry of the drag rectangle is abstracted by the Boolean
  hit-test `hits : Pos → Bool` telling which tiles' bounds intersect the
  selection rectangle, since the claims quantify over arbitrary drags.
-/

namespace MapEditor

/-- Identity of a tile of the fixed grid: its `data-row` / `data-col`
attributes, parsed as numbers. -/
structure Pos where
  row : Nat
  col : Nat
deriving DecidableEq

/-- Mutable per-tile state: the inline `style.background` shorthand, the
inline `style.backgroundPosition` longhand, and membership of the
`"selected"` class.  The empty string stands for an absent inline
declaration. -/
structure TileState where
  bg : String
  bgPos : String
  selectedClass : Bool
deriving DecidableEq

/-- State of a freshly created tile: no inline style, not selected. -/
def TileState.empty : TileState := ⟨"", "", false⟩

/-- Path of the bundled sprite-sheet asset (the webpack import
`sprites`); its exact value is opaque and never inspected. -/
def spritesAsset : String := "sprites.png"

/-- Background value `url(${this.sprites})` written by draw and import. -/
def bgUrl : String := "url(" ++ spritesAsset ++ ")"

/-- Effect of `tile.style.background = b`: the shorthand assignment also
resets the `background-position` longhand (to nothing when the shorthand
is removed by assigning `""`, to its initial value otherwise). -/
def setShort (t : TileState) (b : String) : TileState :=
  if b = "" then { t with bg := "", bgPos := "" }
  else { t with bg := b, bgPos := "initial" }

/-- Effect of `tile.style.backgroundPosition = p`. -/
def setBgPos (t : TileState) (p : String) : TileState :=
  { t with bgPos := p }

/-- Value of `getComputedStyle(tile).backgroundPosition`: an absent or
`initial` inline position resolves to the serialized initial value
`"0% 0%"`. -/
def computedBgPos (t : TileState) : String :=
  if t.bgPos = "" || t.bgPos = "initial" then "0% 0%" else t.bgPos

/-- Record `{ row, col, bg, bgPos }` used both for history snapshots and
for the clipboard `coppiedTileData`. -/
structure TileRecord where
  row : Nat
  col : Nat
  bg : String
  bgPos : String
deriving DecidableEq

/-- Record of the export format produced by `createMapJSON`: sequential
id, computed sprite position, and the decimal-string-typed
`data-col` / `data-row` attribute values. -/
structure ExportTile where
  id : Nat
  bgPosition : String
  col : String
  row : String
deriving DecidableEq

/-- The grid's tile states, addressed by tile identity.  Only positions
inside the fixed bounds are ever read or written. -/
abbrev Grid := Pos → TileState

/-- Mutation of the single tile `p` (the tiles are distinct DOM nodes,
so writing one leaves all others unchanged). -/
def writeTile (g : Grid) (p : Pos) (f : TileState → TileState) : Grid :=
  fun q => if q = p then f (g p) else g q

/-- Observable sprite state of a tile: both inline background fields. -/
def spriteView (t : TileState) : String × String := (t.bg, t.bgPos)

/-- Sprite assignment of a tile as the export/import layer observes it:
`none` when the computed position is the `"0% 0%"` sentinel. -/
def spriteAssignment (t : TileState) : Option String :=
  if computedBgPos t = "0% 0%" then none else some (computedBgPos t)

/-- Row-major enumeration of the grid's tiles, the document order in
which `init` created them and in which `querySelectorAll` returns
them. -/
def docPositions (rows cols : Nat) : List Pos :=
  (List.range rows).flatMap fun r => (List.range cols).map fun c => ⟨r, c⟩

/-- Lookup `querySelector('[data-row="r"][data-col="c"]')` by numeric
coordinates: some tile exactly when the coordinates are in bounds. -/
def tileQuery (rows cols : Nat) (r c : Nat) : Option Pos :=
  if r < rows ∧ c < cols then some ⟨r, c⟩ else none

/-- Same lookup for possibly negative computed coordinates (paste
targets): out-of-bounds coordinates match no tile. -/
def tileQueryInt (rows cols : Nat) (r c : Int) : Option Pos :=
  if 0 ≤ r ∧ 0 ≤ c ∧ r < (rows : Int) ∧ c < (cols : Int) then
    some ⟨r.toNat, c.toNat⟩
  else none

/-- Write of one history/clipboard record onto a tile:
`style.background = rec.bg` then `style.backgroundPosition = rec.bgPos`. -/
def writeRec (rec : TileRecord) (t : TileState) : TileState :=
  setBgPos (setShort t rec.bg) rec.bgPos

/-- Fold of keyed writes over a list: for each element, look its target
tile up (a `querySelector`) and, when one matches, mutate it; elements
matching no tile are skipped.  This is the common shape of the
`forEach` loops of `restoreFromHistory`, `paste` and
`loadMapFromFile`. -/
def keyedFold (key : β → Option Pos) (f : β → TileState → TileState)
    (g : Grid) (L : List β) : Grid :=
  L.foldl (fun g b =>
    match key b with
    | some p => writeTile g p (f b)
    | none => g) g

/-- Fold of one fixed mutation over a list of tile references (a
`forEach` over an array of elements, no lookup involved). -/
def mapTiles (f : TileState → TileState) (g : Grid) (L : List Pos) : Grid :=
  L.foldl (fun g p => writeTile g p f) g

/-- Whole mutable state of the `Map` class: grid dimensions
(`mapRowsCount`/`mapColsCount`), tile states, `selectedTiles`,
`coppiedTileData`, `tileUnderCoursor`, the auto-advance flag, and the
history stack with its cursor. -/
structure EditorState where
  mapRowsCount : Nat
  mapColsCount : Nat
  grid : Grid
  selectedTiles : List Pos
  coppiedTileData : List TileRecord
  tileUnderCoursor : Option Pos
  isAutoEnabled : Bool
  history : List (List TileRecord)
  currentHistoryIndex : Nat

/-- State straight after the constructor ran `init()`: every tile empty,
nothing selected or copied, empty history with cursor 0. -/
def EditorState.init (rows cols : Nat) : EditorState where
  mapRowsCount := rows
  mapColsCount := cols
  grid := fun _ => TileState.empty
  selectedTiles := []
  coppiedTileData := []
  tileUnderCoursor := none
  isAutoEnabled := false
  history := []
  currentHistoryIndex := 0

/-- Position `p` denotes an existing tile of the grid of `s`. -/
def validPos (s : EditorState) (p : Pos) : Prop :=
  p.row < s.mapRowsCount ∧ p.col < s.mapColsCount

/-- Snapshot of every tile's `{row, col, bg, bgPos}` in document order,
as `addToHistory` captures it from `querySelectorAll("div.tile")`. -/
def snapGrid (rows cols : Nat) (g : Grid) : List TileRecord :=
  (docPositions rows cols).map fun p => TileRecord.mk p.row p.col (g p).bg (g p).bgPos

/-- Snapshot of the current grid of `s`. -/
def snapshotRecords (s : EditorState) : List TileRecord :=
  snapGrid s.mapRowsCount s.mapColsCount s.grid

/-- Method `addToHistory`: drop the entries after the cursor
(`history.slice(0, currentHistoryIndex + 1)`), push a full snapshot,
and set the cursor to the new last index. -/
def addToHistory (s : EditorState) : EditorState :=
  let newHistory := s.history.take (s.currentHistoryIndex + 1) ++ [snapshotRecords s]
  { s with history := newHistory, currentHistoryIndex := newHistory.length - 1 }

/-- Replay of one stored snapshot onto the grid: for each record, look
the tile up by its coordinates and write `bg` then `bgPos` back. -/
def restoreGrid (rows cols : Nat) (g : Grid) (state : List TileRecord) : Grid :=
  keyedFold (fun rec => tileQuery rows cols rec.row rec.col) writeRec g state

/-- Method `restoreFromHistory(index)`.  Its only callers, `undo` and
`redo`, guard the index, so the out-of-range branch (where the original
would fault on `undefined`) is never reached. -/
def restoreFromHistory (s : EditorState) (index : Nat) : EditorState :=
  match s.history.get? index with
  | some state =>
      { s with grid := restoreGrid s.mapRowsCount s.mapColsCount s.grid state }
  | none => s

/-- Method `undo`: no-op at cursor 0, otherwise decrement the cursor and
restore that snapshot. -/
def undo (s : EditorState) : EditorState :=
  if s.currentHistoryIndex ≤ 0 then s
  else
    let s' := { s with currentHistoryIndex := s.currentHistoryIndex - 1 }
    restoreFromHistory s' s'.currentHistoryIndex

/-- Method `redo`: no-op at the last entry (the comparison
`currentHistoryIndex >= history.length - 1` is over integers, so the
empty history with cursor 0 is also a no-op), otherwise increment the
cursor and restore that snapshot. -/
def redo (s : EditorState) : EditorState :=
  if (s.currentHistoryIndex : Int) ≥ (s.history.length : Int) - 1 then s
  else
    let s' := { s with currentHistoryIndex := s.currentHistoryIndex + 1 }
    restoreFromHistory s' s'.currentHistoryIndex

/-- Ordering of the comparator passed to `selectedTiles.sort`: ascending
`data-row`, then ascending `data-col`. -/
def rowMajorLE (a b : Pos) : Prop :=
  a.row < b.row ∨ (a.row = b.row ∧ a.col ≤ b.col)

instance : DecidableRel rowMajorLE := fun a b => by
  unfold rowMajorLE; exact inferInstance

instance : IsTotal Pos rowMajorLE where
  total a b := by
    rcases Nat.lt_trichotomy a.row b.row with h | h | h
    · exact Or.inl (Or.inl h)
    · rcases Nat.le_total a.col b.col with hc | hc
      · exact Or.inl (Or.inr ⟨h, hc⟩)
      · exact Or.inr (Or.inr ⟨h.symm, hc⟩)
    · exact Or.inr (Or.inl h)

instance : IsTrans Pos rowMajorLE where
  trans a b c hab hbc := by
    rcases hab with h1 | ⟨h1, h1c⟩
    · rcases hbc with h2 | ⟨h2, _⟩
      · exact Or.inl (h1.trans h2)
      · exact Or.inl (h2 ▸ h1)
    · rcases hbc with h2 | ⟨h2, h2c⟩
      · exact Or.inl (h1 ▸ h2)
      · exact Or.inr ⟨h1.trans h2, h1c.trans h2c⟩

/-- Mutation applied by `drawMap` to each selected tile: set the sprite
sheet as background, set the chosen position, drop the `"selected"`
class. -/
def drawTile (sprite : String) (t : TileState) : TileState :=
  { setBgPos (setShort t bgUrl) sprite with selectedClass := false }

/-- Method `selectNextTile`: advance the selection to the tile after the
last element of (the sorted) `selectedTiles` in row-major order; at the
grid's final cell, leave the selection empty.  The `none` branches are
unreachable from the only caller, `drawMap`, which guarantees a
non-empty selection of existing tiles. -/
def selectNextTile (s : EditorState) : EditorState :=
  match s.selectedTiles.getLast? with
  | none => s
  | some lastTile =>
    let newTile : Option Pos :=
      if s.mapColsCount - 1 ≤ lastTile.col then
        tileQuery s.mapRowsCount s.mapColsCount (lastTile.row + 1) 0
      else
        tileQuery s.mapRowsCount s.mapColsCount lastTile.row (lastTile.col + 1)
    let s1 := { s with selectedTiles := ([] : List Pos) }
    if s.mapColsCount - 1 ≤ lastTile.col ∧ s.mapRowsCount - 1 ≤ lastTile.row then s1
    else
      match newTile with
      | some p =>
          { s1 with grid := writeTile s1.grid p (fun t => { t with selectedClass := true }),
                    selectedTiles := s1.selectedTiles ++ [p] }
      | none => s1

/-- Method `drawMap(sprite)`: no-op on an empty selection; otherwise
sort `selectedTiles` in place row-major, paint every selected tile,
then either auto-advance or clear the selection, and commit one history
snapshot. -/
def drawMap (s : EditorState) (sprite : String) : EditorState :=
  if s.selectedTiles.length ≤ 0 then s
  else
    let sorted := s.selectedTiles.insertionSort rowMajorLE
    let s1 := { s with grid := mapTiles (drawTile sprite) s.grid sorted,
                       selectedTiles := sorted }
    let s2 := if s1.isAutoEnabled then selectNextTile s1
              else { s1 with selectedTiles := ([] : List Pos) }
    addToHistory s2

/-- Method `copySelected`: capture each selected tile's coordinates and
inline background fields into `coppiedTileData`, then remove the
`"selected"` class from those same tiles.  The selection list itself is
left as it was, and no history entry is committed. -/
def copySelected (s : EditorState) : EditorState :=
  let coppiedTileData := s.selectedTiles.map fun p =>
    TileRecord.mk p.row p.col (s.grid p).bg (s.grid p).bgPos
  { s with coppiedTileData := coppiedTileData,
           grid := mapTiles (fun t => { t with selectedClass := false }) s.grid s.selectedTiles }

/-- Method `cutSelected`: copy, then set every selected tile's
background to `"transparent"`, then commit one history snapshot.  Note
there is no empty-selection guard. -/
def cutSelected (s : EditorState) : EditorState :=
  let s1 := copySelected s
  addToHistory { s1 with
    grid := mapTiles (fun t => setShort t "transparent") s1.grid s1.selectedTiles }

/-- Handler of the `Delete` key: clear every selected tile's background,
drop its `"selected"` class, empty the selection, and commit one
history snapshot (also without an empty-selection guard). -/
def deleteSelected (s : EditorState) : EditorState :=
  addToHistory { s with
    grid := mapTiles (fun t => { setShort t "transparent" with selectedClass := false })
      s.grid s.selectedTiles,
    selectedTiles := ([] : List Pos) }

/-- Target cell of one clipboard entry during paste: the anchor plus the
entry's offset from the reference (first) entry, looked up with
out-of-bounds targets matching no tile. -/
def pasteTarget (rows cols : Nat) (anchor : Pos) (ref data : TileRecord) : Option Pos :=
  tileQueryInt rows cols
    ((anchor.row : Int) + ((data.row : Int) - (ref.row : Int)))
    ((anchor.col : Int) + ((data.col : Int) - (ref.col : Int)))

/-- Method `paste`: no-op when the clipboard is empty or no tile is
under the cursor; otherwise write every clipboard entry at its target
(skipping entries whose target is outside the grid) and commit one
history snapshot. -/
def paste (s : EditorState) : EditorState :=
  match s.coppiedTileData, s.tileUnderCoursor with
  | [], _ => s
  | _ :: _, none => s
  | first :: rest, some anchor =>
    addToHistory { s with
      grid := keyedFold (pasteTarget s.mapRowsCount s.mapColsCount anchor first)
        writeRec s.grid (first :: rest) }

/-- Method `createMapJSON`: one record per tile in document order, with
its sequential index, its computed background position, and its
decimal-string `data-col` / `data-row` attributes. -/
def createMapJSON (s : EditorState) : List ExportTile :=
  (docPositions s.mapRowsCount s.mapColsCount).map fun p =>
    ExportTile.mk (p.row * s.mapColsCount + p.col) (computedBgPos (s.grid p))
      (Nat.repr p.col) (Nat.repr p.row)

/-- Lookup `querySelector('.tile[data-col="..."][data-row="..."]')` by
the attribute strings of an imported record: the first tile in document
order whose attribute strings match. -/
def findTileByAttrs (rows cols : Nat) (colS rowS : String) : Option Pos :=
  (docPositions rows cols).find? fun p =>
    Nat.repr p.col == colS && Nat.repr p.row == rowS

/-- Guard of the import loop, `if (tile && tileData.bgPosition !== "0% 0%")`:
an entry is applied exactly when some tile matches its attributes and
its sprite position is not the `"0% 0%"` sentinel. -/
def importKey (rows cols : Nat) (tileData : ExportTile) : Option Pos :=
  match findTileByAttrs rows cols tileData.col tileData.row with
  | some p => if tileData.bgPosition ≠ "0% 0%" then some p else none
  | none => none

/-- Body of the `reader.onload` callback of `loadMapFromFile`: apply the
parsed records to the grid, skipping sentinel and unmatched entries.
No history snapshot is committed. -/
def loadMapFromFile (s : EditorState) (mapData : List ExportTile) : EditorState :=
  { s with
    grid := keyedFold (importKey s.mapRowsCount s.mapColsCount)
      (fun tileData t => setBgPos (setShort t bgUrl) tileData.bgPosition) s.grid mapData }

/-- One tile's step of the `selectTiles` loop: drop the `"selected"`
class of a tile that is neither in `selectedTiles` nor hit, mark a hit
tile, and (when finalizing, i.e. `selecting` is false) append the hit
tile to `selectedTiles`. -/
def selectStep (selecting : Bool) (hits : Pos → Bool) (st : EditorState) (p : Pos) :
    EditorState :=
  let st1 :=
    if p ∉ st.selectedTiles ∧ (st.grid p).selectedClass = true then
      { st with grid := writeTile st.grid p (fun t => { t with selectedClass := false }) }
    else st
  if hits p then
    let st2 := { st1 with
      grid := writeTile st1.grid p (fun t => { t with selectedClass := true }) }
    if selecting then st2 else { st2 with selectedTiles := st2.selectedTiles ++ [p] }
  else st1

/-- Method `selectTiles(selecting?)`, run after the drag positions are
set: clear the selection unless the multi-select modifier is held, then
process every tile in document order against the hit-test `hits` of the
current selection rectangle. -/
def selectTiles (s : EditorState) (ctrlDown selecting : Bool) (hits : Pos → Bool) :
    EditorState :=
  let s0 := if ctrlDown then s else { s with selectedTiles := ([] : List Pos) }
  (docPositions s.mapRowsCount s.mapColsCount).foldl (selectStep selecting hits) s0

/-- The `mousedown` handler: remove the `"selected"` class from every
class-marked tile not in `selectedTiles`, then clear the selection
unless the multi-select modifier is held. -/
def mouseDownPass (s : EditorState) (ctrlDown : Bool) : EditorState :=
  let g := (docPositions s.mapRowsCount s.mapColsCount).foldl
    (fun g p =>
      if (g p).selectedClass = true ∧ p ∉ s.selectedTiles then
        writeTile g p (fun t => { t with selectedClass := false })
      else g) s.grid
  { s with grid := g,
           selectedTiles := if ctrlDown then s.selectedTiles else ([] : List Pos) }

/-- One complete drag selection: the `mousedown` handler followed by the
finalizing `selectTiles()` call of the `mouseup` handler.  The
intermediate `mousemove` previews only repaint class marks that the
finalizing pass recomputes, and never touch `selectedTiles`, so the
quiescent end state is as modelled. -/
def dragGesture (s : EditorState) (ctrlDown : Bool) (hits : Pos → Bool) : EditorState :=
  selectTiles (mouseDownPass s ctrlDown) ctrlDown false hits

/-- Composition stated by the specification for `cutSelected`: perform
`copySelected`, then clear the background of every originally selected
tile (the selection as it was before the copy), then commit one history
snapshot. -/
def cutSpec (s : EditorState) : EditorState :=
  let afterCopy := copySelected s
  addToHistory { afterCopy with
    grid := mapTiles (fun t => setShort t "transparent") afterCopy.grid s.selectedTiles }

/-- Invariant of the history stack: when it is non-empty, the cursor is
a valid index into it. -/
def histInv (s : EditorState) : Prop :=
  s.history ≠ [] → s.currentHistoryIndex < s.history.length

/-- Invariant tying the visual marker to the selection set: an existing
tile carries the `"selected"` class exactly when it is a member of
`selectedTiles`. -/
def classInv (s : EditorState) : Prop :=
  ∀ p : Pos, validPos s p → ((s.grid p).selectedClass = true ↔ p ∈ s.selectedTiles)

instance (s : EditorState) (p : Pos) : Decidable (validPos s p) := by
  unfold validPos
  exact inferInstance

instance (s : EditorState) : Decidable (histInv s) := by
  unfold histInv
  exact inferInstance

end MapEditor

namespace MapEditor

/-- Decimal digit characters of `n`, most significant first: the list
that `Nat.toDigitsCore` produces when given enough fuel. -/
def natDigits (n : Nat) : List Char :=
  if n / 10 = 0 then [Nat.digitChar (n % 10)]
  else natDigits (n / 10) ++ [Nat.digitChar (n % 10)]
termination_by n
decreasing_by
  exact Nat.div_lt_self
    (Nat.pos_of_ne_zero fun h0 => by simp [h0] at *) (by decide)

/-- Cursor parked on the last history entry (vacuously so for the empty
history, whose cursor is 0). -/
def atEnd (s : EditorState) : Prop :=
  s.currentHistoryIndex = s.history.length - 1

/-- One committed mutation: some in-place change of the grid followed by
`addToHistory`, the shape shared by draw, delete, cut and paste. -/
def commitMutation (s : EditorState) (g : Grid) : EditorState :=
  addToHistory { s with grid := g }

/-- Sequence of committed mutations. -/
def applyMuts (s : EditorState) (gs : List Grid) : EditorState :=
  gs.foldl commitMutation s

/-- Synchronization of a state with the list of grids of its committed
mutations: the history holds exactly their snapshots, the cursor points
at one of them, and the grid's sprite state agrees with the snapshot
under the cursor. -/
def histSync (S : EditorState) (gs : List Grid) : Prop :=
  S.history = gs.map (snapGrid S.mapRowsCount S.mapColsCount) ∧
  S.currentHistoryIndex < gs.length ∧
  ∀ g, gs.get? S.currentHistoryIndex = some g →
    ∀ p, validPos S p → spriteView (S.grid p) = spriteView (g p)

/-! ### Basic lemmas about tile writes and the fold combinators -/

theorem writeTile_self (g : Grid) (p : Pos) (f : TileState → TileState) :
    writeTile g p f p = f (g p) := by
  simp [writeTile]

theorem writeTile_ne (g : Grid) (p : Pos) (f : TileState → TileState) {q : Pos}
    (h : q ≠ p) : writeTile g p f q = g q := by
  simp [writeTile, h]

theorem writeRec_eq (rec : TileRecord) (t : TileState) :
    writeRec rec t = ⟨rec.bg, rec.bgPos, t.selectedClass⟩ := by
  by_cases h : rec.bg = "" <;> simp [writeRec, setShort, setBgPos, h]

theorem drawTile_eq (sprite : String) (t : TileState) :
    drawTile sprite t = ⟨bgUrl, sprite, false⟩ := by
  simp [drawTile, setShort, setBgPos, bgUrl, spritesAsset]

theorem keyedFold_nil (key : β → Option Pos) (f : β → TileState → TileState) (g : Grid) :
    keyedFold key f g [] = g := rfl

theorem keyedFold_cons (key : β → Option Pos) (f : β → TileState → TileState) (g : Grid)
    (b : β) (L : List β) :
    keyedFold key f g (b :: L) =
      keyedFold key f (match key b with
        | some p => writeTile g p (f b)
        | none => g) L := rfl

theorem keyedFold_cons_some (key : β → Option Pos) (f : β → TileState → TileState)
    (g : Grid) {b : β} {p : Pos} (L : List β) (hb : key b = some p) :
    keyedFold key f g (b :: L) = keyedFold key f (writeTile g p (f b)) L := by
  rw [keyedFold_cons, hb]

theorem keyedFold_cons_none (key : β → Option Pos) (f : β → TileState → TileState)
    (g : Grid) {b : β} (L : List β) (hb : key b = none) :
    keyedFold key f g (b :: L) = keyedFold key f g L := by
  rw [keyedFold_cons, hb]

theorem keyedFold_append (key : β → Option Pos) (f : β → TileState → TileState) (g : Grid)
    (L1 L2 : List β) :
    keyedFold key f g (L1 ++ L2) = keyedFold key f (keyedFold key f g L1) L2 := by
  simp [keyedFold, List.foldl_append]

theorem keyedFold_not_target (key : β → Option Pos) (f : β → TileState → TileState)
    {q : Pos} :
    ∀ (L : List β) (g : Grid), (∀ b ∈ L, key b ≠ some q) → keyedFold key f g L q = g q := by
  intro L
  induction L with
  | nil => intro g _; rfl
  | cons b T ih =>
    intro g h
    rcases hb : key b with _ | p
    · rw [keyedFold_cons_none _ _ _ _ hb]
      exact ih g fun b' hb' => h b' (List.mem_cons_of_mem _ hb')
    · have hne : q ≠ p := by
        intro hq
        exact h b (List.mem_cons_self _ _) (by rw [hb, hq])
      rw [keyedFold_cons_some _ _ _ _ hb,
        ih _ fun b' hb' => h b' (List.mem_cons_of_mem _ hb'), writeTile_ne _ _ _ hne]

theorem keyedFold_last_write (key : β → Option Pos) (f : β → TileState → TileState)
    (g : Grid) {q : Pos} (L1 : List β) (b : β) (L2 : List β)
    (hb : key b = some q) (h2 : ∀ b' ∈ L2, key b' ≠ some q) :
    keyedFold key f g (L1 ++ b :: L2) q = f b (keyedFold key f g L1 q) := by
  rw [keyedFold_append, keyedFold_cons_some _ _ _ _ hb,
    keyedFold_not_target key f L2 _ h2, writeTile_self]

theorem keyedFold_field (key : β → Option Pos) (f : β → TileState → TileState)
    (F : TileState → γ) (hf : ∀ b t, F ((f b) t) = F t) {q : Pos} :
    ∀ (L : List β) (g : Grid), F (keyedFold key f g L q) = F (g q) := by
  intro L
  induction L with
  | nil => intro g; rfl
  | cons b T ih =>
    intro g
    rcases hb : key b with _ | p
    · rw [keyedFold_cons_none _ _ _ _ hb]; exact ih g
    · rw [keyedFold_cons_some _ _ _ _ hb, ih]
      by_cases hq : q = p
      · subst hq; rw [writeTile_self, hf]
      · rw [writeTile_ne _ _ _ hq]

theorem mapTiles_nil (f : TileState → TileState) (g : Grid) : mapTiles f g [] = g := rfl

theorem mapTiles_cons (f : TileState → TileState) (g : Grid) (p : Pos) (L : List Pos) :
    mapTiles f g (p :: L) = mapTiles f (writeTile g p f) L := rfl

theorem mapTiles_apply (f : TileState → TileState) (hf : ∀ t, f (f t) = f t) {q : Pos} :
    ∀ (L : List Pos) (g : Grid), mapTiles f g L q = if q ∈ L then f (g q) else g q := by
  intro L
  induction L with
  | nil => intro g; simp [mapTiles_nil]
  | cons p T ih =>
    intro g
    rw [mapTiles_cons, ih]
    by_cases hq : q = p
    · subst hq
      by_cases hT : q ∈ T <;> simp [hT, writeTile_self, hf]
    · by_cases hT : q ∈ T <;> simp [hT, writeTile_ne _ _ _ hq, hq]

theorem mapTiles_field (f : TileState → TileState) (F : TileState → γ)
    (hf : ∀ t, F (f t) = F t) {q : Pos} :
    ∀ (L : List Pos) (g : Grid), F (mapTiles f g L q) = F (g q) := by
  intro L
  induction L with
  | nil => intro g; rfl
  | cons p T ih =>
    intro g
    rw [mapTiles_cons, ih]
    by_cases hq : q = p
    · subst hq; rw [writeTile_self, hf]
    · rw [writeTile_ne _ _ _ hq]

/-! ### The document-order enumeration of tiles -/

theorem mem_docPositions {rows cols : Nat} {p : Pos} :
    p ∈ docPositions rows cols ↔ p.row < rows ∧ p.col < cols := by
  constructor
  · intro h
    simp only [docPositions, List.mem_flatMap, List.mem_map, List.mem_range] at h
    obtain ⟨r, hr, c, hc, hp⟩ := h
    subst hp; exact ⟨hr, hc⟩
  · intro ⟨hr, hc⟩
    simp only [docPositions, List.mem_flatMap, List.mem_map, List.mem_range]
    exact ⟨p.row, hr, p.col, hc, rfl⟩

theorem nodup_docPositions (rows cols : Nat) : (docPositions rows cols).Nodup := by
  unfold docPositions
  rw [List.nodup_flatMap]
  constructor
  · intro r _
    exact (List.nodup_range cols).map fun a b h => by
      simpa using congrArg Pos.col h
  · refine (List.nodup_range rows).pairwise_of_forall_ne ?_
    intro r1 r2 _ _ hne p hp1 hp2
    simp only [List.mem_map, List.mem_range] at hp1 hp2
    obtain ⟨c1, _, h1⟩ := hp1
    obtain ⟨c2, _, h2⟩ := hp2
    subst h1
    injection h2 with hr _
    exact hne hr.symm

end MapEditor

namespace MapEditor

/-! ### Injectivity of the decimal `data-row` / `data-col` strings

The attribute selectors of `loadMapFromFile` compare the decimal string
of a coordinate (written by `init` as `i.toString()`) for equality; the
following shows distinct numbers always yield distinct strings, so the
selector lookup is exact. -/

theorem natDigits_ne_nil (n : Nat) : natDigits n ≠ [] := by
  rw [natDigits]
  by_cases h : n / 10 = 0 <;> simp [h]

theorem toDigitsCore_eq_natDigits :
    ∀ (fuel n : Nat) (ds : List Char), n < fuel →
      Nat.toDigitsCore 10 fuel n ds = natDigits n ++ ds := by
  intro fuel
  induction fuel with
  | zero => intro n ds h; omega
  | succ fuel ih =>
    intro n ds h
    rw [Nat.toDigitsCore, natDigits]
    by_cases h0 : n / 10 = 0
    · simp [h0]
    · have hlt : n / 10 < fuel := by
        have h1 : n / 10 < n := Nat.div_lt_self
          (Nat.pos_of_ne_zero fun hz => by simp [hz] at h0) (by decide)
        omega
      simp only [h0, if_false, ih (n / 10) _ hlt]
      simp

theorem natDigits_eq (n : Nat) :
    natDigits n = if n / 10 = 0 then [Nat.digitChar (n % 10)]
      else natDigits (n / 10) ++ [Nat.digitChar (n % 10)] := by
  rw [natDigits]

theorem digitChar_inj_aux :
    ∀ a, a < 10 → ∀ b, b < 10 → Nat.digitChar a = Nat.digitChar b → a = b := by
  decide

theorem digitChar_inj {a b : Nat} (ha : a < 10) (hb : b < 10)
    (h : Nat.digitChar a = Nat.digitChar b) : a = b :=
  digitChar_inj_aux a ha b hb h

theorem natDigits_inj : ∀ m n : Nat, natDigits m = natDigits n → m = n := by
  intro m
  induction m using Nat.strong_induction_on with
  | _ m ih =>
    intro n h
    rw [natDigits_eq m, natDigits_eq n] at h
    by_cases hm : m / 10 = 0 <;> by_cases hn : n / 10 = 0
    · rw [if_pos hm, if_pos hn] at h
      have := digitChar_inj (Nat.mod_lt m (by decide)) (Nat.mod_lt n (by decide))
        (List.cons.inj h).1
      omega
    · exfalso
      rw [if_pos hm, if_neg hn] at h
      have hlen := congrArg List.length h
      simp only [List.length_append, List.length_cons, List.length_nil] at hlen
      have := natDigits_ne_nil (n / 10)
      rcases List.exists_cons_of_ne_nil this with ⟨c, T, hT⟩
      rw [hT] at hlen
      simp at hlen
    · exfalso
      rw [if_neg hm, if_pos hn] at h
      have hlen := congrArg List.length h
      simp only [List.length_append, List.length_cons, List.length_nil] at hlen
      have := natDigits_ne_nil (m / 10)
      rcases List.exists_cons_of_ne_nil this with ⟨c, T, hT⟩
      rw [hT] at hlen
      simp at hlen
    · rw [if_neg hm, if_neg hn, ← List.concat_eq_append, ← List.concat_eq_append] at h
      have h2 := List.concat_inj.mp h
      have hd := digitChar_inj (Nat.mod_lt m (by decide)) (Nat.mod_lt n (by decide)) h2.2
      have hq := ih (m / 10) (Nat.div_lt_self (Nat.pos_of_ne_zero fun hz => by
        simp [hz] at hm) (by decide)) (n / 10) h2.1
      omega

theorem natRepr_inj {m n : Nat} (h : Nat.repr m = Nat.repr n) : m = n := by
  have hdata := congrArg String.data h
  simp only [Nat.repr, Nat.toDigits, List.asString] at hdata
  rw [toDigitsCore_eq_natDigits _ _ _ (Nat.lt_succ_self m),
    toDigitsCore_eq_natDigits _ _ _ (Nat.lt_succ_self n)] at hdata
  simp at hdata
  exact natDigits_inj m n hdata

theorem find?_eq_some_of_unique {α : Type} {p : α → Bool} {q : α} :
    ∀ L : List α, q ∈ L → (∀ x ∈ L, (p x = true ↔ x = q)) → L.find? p = some q := by
  intro L
  induction L with
  | nil => intro h; cases h
  | cons x T ih =>
    intro hq hu
    rw [List.find?_cons]
    by_cases hx : p x = true
    · rw [hx]
      exact congrArg some ((hu x (List.mem_cons_self _ _)).mp hx)
    · have hxb : p x = false := by
        cases hpx : p x
        · rfl
        · exact absurd hpx hx
      rw [hxb]
      have hxq : x ≠ q := fun he => hx ((hu x (List.mem_cons_self _ _)).mpr he)
      have hqT : q ∈ T := by
        rcases List.mem_cons.mp hq with h | h
        · exact absurd h.symm hxq
        · exact h
      exact ih hqT fun y hy => hu y (List.mem_cons_of_mem _ hy)

theorem findTileByAttrs_self {rows cols : Nat} {p : Pos}
    (hr : p.row < rows) (hc : p.col < cols) :
    findTileByAttrs rows cols (Nat.repr p.col) (Nat.repr p.row) = some p := by
  apply find?_eq_some_of_unique
  · exact mem_docPositions.mpr ⟨hr, hc⟩
  · intro x _
    constructor
    · intro hx
      simp only [Bool.and_eq_true, beq_iff_eq] at hx
      have h1 := natRepr_inj hx.1
      have h2 := natRepr_inj hx.2
      cases p; cases x
      simp only at h1 h2
      simp [h1, h2]
    · intro hx
      subst hx
      simp

end MapEditor

namespace MapEditor

/-! ### Snapshot capture and restoration -/

theorem snapGrid_eq_map (rows cols : Nat) (g : Grid) :
    snapGrid rows cols g =
      (docPositions rows cols).map fun p => TileRecord.mk p.row p.col (g p).bg (g p).bgPos :=
  rfl

theorem tileQuery_pos {rows cols r c : Nat} (hr : r < rows) (hc : c < cols) :
    tileQuery rows cols r c = some ⟨r, c⟩ := by
  simp [tileQuery, hr, hc]

theorem restoreGrid_class (rows cols : Nat) (g : Grid) (state : List TileRecord) (q : Pos) :
    (restoreGrid rows cols g state q).selectedClass = (g q).selectedClass := by
  exact keyedFold_field _ _ TileState.selectedClass
    (fun rec t => by rw [writeRec_eq]) state g

theorem restore_snap (rows cols : Nat) (g g' : Grid) {p : Pos}
    (hr : p.row < rows) (hc : p.col < cols) :
    restoreGrid rows cols g (snapGrid rows cols g') p =
      ⟨(g' p).bg, (g' p).bgPos, (g p).selectedClass⟩ := by
  have hp : p ∈ docPositions rows cols := mem_docPositions.mpr ⟨hr, hc⟩
  rcases List.append_of_mem hp with ⟨L1, L2, hL⟩
  have hnd : (docPositions rows cols).Nodup := nodup_docPositions rows cols
  rw [hL] at hnd
  have hpL2 : p ∉ L2 := (List.nodup_cons.mp hnd.of_append_right).1
  have hb : tileQuery rows cols (TileRecord.mk p.row p.col (g' p).bg (g' p).bgPos).row
      (TileRecord.mk p.row p.col (g' p).bg (g' p).bgPos).col = some p := by
    simpa using tileQuery_pos hr hc
  have h2 : ∀ b' ∈ L2.map fun q => TileRecord.mk q.row q.col (g' q).bg (g' q).bgPos,
      tileQuery rows cols b'.row b'.col ≠ some p := by
    intro b' hb' hkey
    simp only [List.mem_map] at hb'
    obtain ⟨q, hq2, hqb⟩ := hb'
    subst hqb
    simp only [tileQuery] at hkey
    by_cases hqv : q.row < rows ∧ q.col < cols
    · rw [if_pos hqv] at hkey
      exact hpL2 ((show q = p from Option.some.inj hkey) ▸ hq2)
    · rw [if_neg hqv] at hkey
      exact Option.noConfusion hkey
  unfold restoreGrid
  rw [snapGrid_eq_map, hL, List.map_append, List.map_cons]
  rw [keyedFold_last_write (fun rec => tileQuery rows cols rec.row rec.col) writeRec g
    (L1.map fun q => TileRecord.mk q.row q.col (g' q).bg (g' q).bgPos)
    (TileRecord.mk p.row p.col (g' p).bg (g' p).bgPos)
    (L2.map fun q => TileRecord.mk q.row q.col (g' q).bg (g' q).bgPos) hb h2]
  rw [writeRec_eq]
  have hclass : ∀ (L : List TileRecord) (g0 : Grid),
      (keyedFold (fun rec => tileQuery rows cols rec.row rec.col)
          writeRec g0 L p).selectedClass = (g0 p).selectedClass := fun L g0 =>
    keyedFold_field _ _ TileState.selectedClass (fun rec t => by rw [writeRec_eq]) L g0
  rw [hclass]

/-! ### The history stack -/

theorem addToHistory_history (s : EditorState) :
    (addToHistory s).history =
      s.history.take (s.currentHistoryIndex + 1) ++ [snapshotRecords s] := rfl

theorem addToHistory_cursor (s : EditorState) :
    (addToHistory s).currentHistoryIndex = (addToHistory s).history.length - 1 := rfl

theorem addToHistory_grid (s : EditorState) : (addToHistory s).grid = s.grid := rfl

theorem take_cursor_of_atEnd {s : EditorState} (h : atEnd s) :
    s.history.take (s.currentHistoryIndex + 1) = s.history := by
  apply List.take_of_length_le
  unfold atEnd at h
  omega

theorem applyMuts_char :
    ∀ (gs : List Grid) (s : EditorState), atEnd s →
      (applyMuts s gs).history =
          s.history ++ gs.map (snapGrid s.mapRowsCount s.mapColsCount) ∧
        (applyMuts s gs).currentHistoryIndex = s.history.length + gs.length - 1 ∧
        (applyMuts s gs).grid = gs.getLastD s.grid ∧
        (applyMuts s gs).mapRowsCount = s.mapRowsCount ∧
        (applyMuts s gs).mapColsCount = s.mapColsCount ∧
        atEnd (applyMuts s gs) := by
  intro gs
  induction gs with
  | nil =>
    intro s hs
    refine ⟨by simp [applyMuts], ?_, rfl, rfl, rfl, hs⟩
    unfold atEnd at hs
    simp [applyMuts]
    omega
  | cons g gs ih =>
    intro s hs
    have hstep : applyMuts s (g :: gs) = applyMuts (commitMutation s g) gs := rfl
    have hhist : (commitMutation s g).history =
        s.history ++ [snapGrid s.mapRowsCount s.mapColsCount g] := by
      show s.history.take (s.currentHistoryIndex + 1) ++ [snapshotRecords _] = _
      rw [take_cursor_of_atEnd hs]
      rfl
    have hcur : (commitMutation s g).currentHistoryIndex =
        (commitMutation s g).history.length - 1 := rfl
    have hatEnd : atEnd (commitMutation s g) := hcur
    obtain ⟨h1, h2, h3, h4, h5, h6⟩ := ih (commitMutation s g) hatEnd
    have hdr : (commitMutation s g).mapRowsCount = s.mapRowsCount := rfl
    have hdc : (commitMutation s g).mapColsCount = s.mapColsCount := rfl
    refine ⟨?_, ?_, ?_, by rw [hstep, h4, hdr], by rw [hstep, h5, hdc], hstep ▸ h6⟩
    · rw [hstep, h1, hhist, hdr, hdc, List.map_cons, List.append_assoc]
      rfl
    · rw [hstep, h2, hhist]
      simp only [List.length_append, List.length_cons, List.length_nil, List.length_map]
      omega
    · rw [hstep, h3]
      show gs.getLastD g = _
      rw [List.getLastD_cons]

end MapEditor

namespace MapEditor

/-! ### Stepping through history with undo and redo -/

theorem undo_noop {S : EditorState} (h : S.currentHistoryIndex = 0) : undo S = S := by
  simp [undo, h]

theorem undo_step {S : EditorState} {gs : List Grid} (h : histSync S gs)
    (hpos : 0 < S.currentHistoryIndex) :
    histSync (undo S) gs ∧
      (undo S).currentHistoryIndex = S.currentHistoryIndex - 1 ∧
      (undo S).mapRowsCount = S.mapRowsCount ∧
      (undo S).mapColsCount = S.mapColsCount := by
  obtain ⟨hh, hlt, _⟩ := h
  have hc0 : ¬ S.currentHistoryIndex ≤ 0 := by omega
  have hprev : S.currentHistoryIndex - 1 < gs.length := by omega
  rcases List.get?_eq_some.mpr ⟨hprev, rfl⟩ with hget0
  have hget : S.history.get? (S.currentHistoryIndex - 1) =
      some (snapGrid S.mapRowsCount S.mapColsCount
        (gs.get ⟨S.currentHistoryIndex - 1, hprev⟩)) := by
    rw [hh, List.get?_map, hget0]
    rfl
  have hundo : undo S =
      { S with
        currentHistoryIndex := S.currentHistoryIndex - 1,
        grid := restoreGrid S.mapRowsCount S.mapColsCount S.grid
          (snapGrid S.mapRowsCount S.mapColsCount
            (gs.get ⟨S.currentHistoryIndex - 1, hprev⟩)) } := by
    rw [undo, if_neg hc0]
    simp only [restoreFromHistory, hget]
  rw [hundo]
  refine ⟨⟨hh, by simpa using hprev, ?_⟩, rfl, rfl, rfl⟩
  intro g hg p hp
  dsimp only at hg hp ⊢
  have hgeq : g = gs.get ⟨S.currentHistoryIndex - 1, hprev⟩ := by
    rw [hget0] at hg
    exact (Option.some.inj hg).symm
  subst hgeq
  rw [restore_snap _ _ _ _ hp.1 hp.2]
  rfl

theorem undo_iter {gs : List Grid} :
    ∀ (k : Nat) (S : EditorState), histSync S gs → k ≤ S.currentHistoryIndex →
      histSync (undo^[k] S) gs ∧
        (undo^[k] S).currentHistoryIndex = S.currentHistoryIndex - k ∧
        (undo^[k] S).mapRowsCount = S.mapRowsCount ∧
        (undo^[k] S).mapColsCount = S.mapColsCount := by
  intro k
  induction k with
  | zero => intro S h _; exact ⟨h, by simp, rfl, rfl⟩
  | succ k ih =>
    intro S h hk
    rw [Function.iterate_succ_apply]
    obtain ⟨h1, h2, h3, h4⟩ := undo_step h (by omega)
    obtain ⟨g1, g2, g3, g4⟩ := ih (undo S) h1 (by omega)
    exact ⟨g1, by rw [g2, h2]; omega, g3.trans h3, g4.trans h4⟩

theorem redo_noop {S : EditorState}
    (h : (S.currentHistoryIndex : Int) ≥ (S.history.length : Int) - 1) : redo S = S := by
  rw [redo, if_pos h]

theorem redo_step {S : EditorState} {gs : List Grid} (h : histSync S gs)
    (hlt : S.currentHistoryIndex + 1 < gs.length) :
    histSync (redo S) gs ∧
      (redo S).currentHistoryIndex = S.currentHistoryIndex + 1 ∧
      (redo S).mapRowsCount = S.mapRowsCount ∧
      (redo S).mapColsCount = S.mapColsCount := by
  obtain ⟨hh, _, _⟩ := h
  have hlen : S.history.length = gs.length := by rw [hh, List.length_map]
  have hc0 : ¬ (S.currentHistoryIndex : Int) ≥ (S.history.length : Int) - 1 := by
    rw [hlen]; omega
  rcases List.get?_eq_some.mpr ⟨hlt, rfl⟩ with hget0
  have hget : S.history.get? (S.currentHistoryIndex + 1) =
      some (snapGrid S.mapRowsCount S.mapColsCount (gs.get ⟨S.currentHistoryIndex + 1, hlt⟩)) := by
    rw [hh, List.get?_map, hget0]
    rfl
  have hredo : redo S =
      { S with
        currentHistoryIndex := S.currentHistoryIndex + 1,
        grid := restoreGrid S.mapRowsCount S.mapColsCount S.grid
          (snapGrid S.mapRowsCount S.mapColsCount
            (gs.get ⟨S.currentHistoryIndex + 1, hlt⟩)) } := by
    rw [redo, if_neg hc0]
    simp only [restoreFromHistory, hget]
  rw [hredo]
  refine ⟨⟨hh, by simpa using hlt, ?_⟩, rfl, rfl, rfl⟩
  intro g hg p hp
  dsimp only at hg hp ⊢
  have hgeq : g = gs.get ⟨S.currentHistoryIndex + 1, hlt⟩ := by
    rw [hget0] at hg
    exact (Option.some.inj hg).symm
  subst hgeq
  rw [restore_snap _ _ _ _ hp.1 hp.2]
  rfl

theorem redo_iter {gs : List Grid} :
    ∀ (k : Nat) (S : EditorState), histSync S gs → S.currentHistoryIndex + k < gs.length →
      histSync (redo^[k] S) gs ∧
        (redo^[k] S).currentHistoryIndex = S.currentHistoryIndex + k ∧
        (redo^[k] S).mapRowsCount = S.mapRowsCount ∧
        (redo^[k] S).mapColsCount = S.mapColsCount := by
  intro k
  induction k with
  | zero => intro S h _; exact ⟨h, by simp, rfl, rfl⟩
  | succ k ih =>
    intro S h hk
    rw [Function.iterate_succ_apply]
    obtain ⟨h1, h2, h3, h4⟩ := redo_step h (by omega)
    obtain ⟨g1, g2, g3, g4⟩ := ih (redo S) h1 (by rw [h2]; omega)
    exact ⟨g1, by rw [g2, h2]; omega, g3.trans h3, g4.trans h4⟩

theorem restoreFromHistory_frame (s : EditorState) (i : Nat) :
    (restoreFromHistory s i).history = s.history ∧
      (restoreFromHistory s i).coppiedTileData = s.coppiedTileData ∧
      (restoreFromHistory s i).selectedTiles = s.selectedTiles ∧
      (restoreFromHistory s i).tileUnderCoursor = s.tileUnderCoursor ∧
      (restoreFromHistory s i).isAutoEnabled = s.isAutoEnabled ∧
      (restoreFromHistory s i).mapRowsCount = s.mapRowsCount ∧
      (restoreFromHistory s i).mapColsCount = s.mapColsCount ∧
      (restoreFromHistory s i).currentHistoryIndex = s.currentHistoryIndex := by
  rcases hget : s.history.get? i with _ | st <;>
    simp only [restoreFromHistory, hget] <;> simp

theorem undo_frame (s : EditorState) :
    (undo s).history = s.history ∧
      (undo s).coppiedTileData = s.coppiedTileData ∧
      (undo s).selectedTiles = s.selectedTiles ∧
      (undo s).tileUnderCoursor = s.tileUnderCoursor ∧
      (undo s).isAutoEnabled = s.isAutoEnabled ∧
      (undo s).mapRowsCount = s.mapRowsCount ∧
      (undo s).mapColsCount = s.mapColsCount := by
  unfold undo
  by_cases h : s.currentHistoryIndex ≤ 0
  · rw [if_pos h]
    exact ⟨rfl, rfl, rfl, rfl, rfl, rfl, rfl⟩
  · rw [if_neg h]
    obtain ⟨h1, h2, h3, h4, h5, h6, h7, _⟩ := restoreFromHistory_frame
      { s with currentHistoryIndex := s.currentHistoryIndex - 1 }
      (s.currentHistoryIndex - 1)
    exact ⟨h1, h2, h3, h4, h5, h6, h7⟩

theorem redo_frame (s : EditorState) :
    (redo s).history = s.history ∧
      (redo s).coppiedTileData = s.coppiedTileData ∧
      (redo s).selectedTiles = s.selectedTiles ∧
      (redo s).tileUnderCoursor = s.tileUnderCoursor ∧
      (redo s).isAutoEnabled = s.isAutoEnabled ∧
      (redo s).mapRowsCount = s.mapRowsCount ∧
      (redo s).mapColsCount = s.mapColsCount := by
  unfold redo
  by_cases h : (s.currentHistoryIndex : Int) ≥ (s.history.length : Int) - 1
  · rw [if_pos h]
    exact ⟨rfl, rfl, rfl, rfl, rfl, rfl, rfl⟩
  · rw [if_neg h]
    obtain ⟨h1, h2, h3, h4, h5, h6, h7, _⟩ := restoreFromHistory_frame
      { s with currentHistoryIndex := s.currentHistoryIndex + 1 }
      (s.currentHistoryIndex + 1)
    exact ⟨h1, h2, h3, h4, h5, h6, h7⟩

end MapEditor

namespace MapEditor

/-! ### The row-major sort of `drawMap` -/

theorem rowMajorLE_refl (a : Pos) : rowMajorLE a a := Or.inr ⟨rfl, Nat.le_refl _⟩

theorem rowMajorLE_antisymm {a b : Pos} (h1 : rowMajorLE a b) (h2 : rowMajorLE b a) :
    a = b := by
  rcases h1 with h1 | ⟨h1, h1c⟩ <;> rcases h2 with h2 | ⟨h2, h2c⟩
  · omega
  · omega
  · omega
  · cases a; cases b
    simp only at h1 h1c h2c
    simp [h1]
    omega

theorem getLast_ub :
    ∀ (l : List Pos) (h : l ≠ []), l.Sorted rowMajorLE →
      ∀ a ∈ l, rowMajorLE a (l.getLast h) := by
  intro l
  induction l with
  | nil => intro h; exact absurd rfl h
  | cons x t ih =>
    intro h hs a ha
    rcases t with _ | ⟨y, t'⟩
    · have : a = x := by simpa using ha
      subst this
      exact rowMajorLE_refl a
    · rw [List.getLast_cons (by simp)]
      rcases List.mem_cons.mp ha with h1 | h1
      · subst h1
        have hrel := List.rel_of_sorted_cons hs (List.getLast (y :: t') (by simp))
          (List.getLast_mem _)
        exact hrel
      · exact ih (by simp) hs.of_cons a h1

theorem sorted_getLast_eq_max {l : List Pos} (h : l ≠ []) (hs : l.Sorted rowMajorLE)
    {m : Pos} (hm : m ∈ l) (hmax : ∀ p ∈ l, rowMajorLE p m) :
    l.getLast h = m :=
  rowMajorLE_antisymm (hmax _ (List.getLast_mem h)) (getLast_ub l h hs m hm)

theorem insertionSort_getLast_eq_max {l : List Pos}
    {m : Pos} (hm : m ∈ l) (hmax : ∀ p ∈ l, rowMajorLE p m)
    (h : l.insertionSort rowMajorLE ≠ []) :
    (l.insertionSort rowMajorLE).getLast h = m := by
  have hperm := List.perm_insertionSort rowMajorLE l
  exact sorted_getLast_eq_max h (List.sorted_insertionSort rowMajorLE l)
    (hperm.mem_iff.mpr hm) fun p hp => hmax p (hperm.mem_iff.mp hp)

theorem insertionSort_ne_nil {l : List Pos} (hne : l ≠ []) :
    l.insertionSort rowMajorLE ≠ [] := by
  intro h
  have := (List.perm_insertionSort rowMajorLE l).length_eq
  rw [h] at this
  exact hne (List.length_eq_zero.mp this.symm)

/-! ### Behaviour of `drawMap` -/

theorem drawTile_idem (sprite : String) (t : TileState) :
    drawTile sprite (drawTile sprite t) = drawTile sprite t := by
  rw [drawTile_eq, drawTile_eq]

theorem drawMap_guard {s : EditorState} (h : s.selectedTiles = []) (sprite : String) :
    drawMap s sprite = s := by
  rw [drawMap, if_pos (by simp [h])]

/-- Grid and selection of `drawMap` with auto-advance off. -/
theorem drawMap_off_char {s : EditorState} (sprite : String)
    (hne : s.selectedTiles ≠ []) (hoff : s.isAutoEnabled = false) :
    (drawMap s sprite).selectedTiles = [] ∧
      (∀ q : Pos, (drawMap s sprite).grid q =
        if q ∈ s.selectedTiles then ⟨bgUrl, sprite, false⟩ else s.grid q) ∧
      (drawMap s sprite).history =
        s.history.take (s.currentHistoryIndex + 1) ++
          [snapGrid s.mapRowsCount s.mapColsCount (drawMap s sprite).grid] ∧
      (drawMap s sprite).mapRowsCount = s.mapRowsCount ∧
      (drawMap s sprite).mapColsCount = s.mapColsCount := by
  have hlen : ¬ s.selectedTiles.length ≤ 0 := by
    have := List.length_pos.mpr hne
    omega
  have hgrid : ∀ q : Pos,
      mapTiles (drawTile sprite) s.grid (s.selectedTiles.insertionSort rowMajorLE) q =
        if q ∈ s.selectedTiles then ⟨bgUrl, sprite, false⟩ else s.grid q := by
    intro q
    rw [mapTiles_apply (drawTile sprite) (drawTile_idem sprite)]
    by_cases hq : q ∈ s.selectedTiles
    · rw [if_pos ((List.perm_insertionSort rowMajorLE _).mem_iff.mpr hq), if_pos hq,
        drawTile_eq]
    · rw [if_neg (fun hmem => hq ((List.perm_insertionSort rowMajorLE _).mem_iff.mp hmem)),
        if_neg hq]
  rw [drawMap, if_neg hlen]
  simp only [hoff, Bool.false_eq_true, if_false]
  exact ⟨rfl, hgrid, rfl, rfl, rfl⟩

/-- Grid and selection of `drawMap` with auto-advance on, phrased with
the row-major maximum `m` of the selection. -/
theorem drawMap_auto_char {s : EditorState} (sprite : String)
    (hne : s.selectedTiles ≠ []) (hauto : s.isAutoEnabled = true)
    (hval : ∀ p ∈ s.selectedTiles, validPos s p)
    {m : Pos} (hm : m ∈ s.selectedTiles) (hmax : ∀ p ∈ s.selectedTiles, rowMajorLE p m) :
    (if s.mapColsCount - 1 ≤ m.col ∧ s.mapRowsCount - 1 ≤ m.row then
        (drawMap s sprite).selectedTiles = [] ∧
          ∀ q : Pos, (drawMap s sprite).grid q =
            if q ∈ s.selectedTiles then ⟨bgUrl, sprite, false⟩ else s.grid q
      else
        ∃ nxt : Pos,
          nxt = (if s.mapColsCount - 1 ≤ m.col then ⟨m.row + 1, 0⟩
            else ⟨m.row, m.col + 1⟩ : Pos) ∧
          nxt ∉ s.selectedTiles ∧
          (drawMap s sprite).selectedTiles = [nxt] ∧
          ∀ q : Pos, (drawMap s sprite).grid q =
            if q = nxt then { s.grid nxt with selectedClass := true }
            else if q ∈ s.selectedTiles then ⟨bgUrl, sprite, false⟩ else s.grid q) ∧
      (drawMap s sprite).mapRowsCount = s.mapRowsCount ∧
      (drawMap s sprite).mapColsCount = s.mapColsCount := by
  have hlen : ¬ s.selectedTiles.length ≤ 0 := by
    have := List.length_pos.mpr hne
    omega
  have hsne := insertionSort_ne_nil hne
  have hlast : (s.selectedTiles.insertionSort rowMajorLE).getLast hsne = m :=
    insertionSort_getLast_eq_max hm hmax hsne
  have hlastq : (s.selectedTiles.insertionSort rowMajorLE).getLast? = some m := by
    rw [List.getLast?_eq_getLast _ hsne, hlast]
  have hgrid : ∀ q : Pos,
      mapTiles (drawTile sprite) s.grid (s.selectedTiles.insertionSort rowMajorLE) q =
        if q ∈ s.selectedTiles then ⟨bgUrl, sprite, false⟩ else s.grid q := by
    intro q
    rw [mapTiles_apply (drawTile sprite) (drawTile_idem sprite)]
    by_cases hq : q ∈ s.selectedTiles
    · rw [if_pos ((List.perm_insertionSort rowMajorLE _).mem_iff.mpr hq), if_pos hq,
        drawTile_eq]
    · rw [if_neg (fun hmem => hq ((List.perm_insertionSort rowMajorLE _).mem_iff.mp hmem)),
        if_neg hq]
  have hmval : validPos s m := hval m hm
  rw [drawMap, if_neg hlen]
  simp only [hauto, if_true]
  rw [selectNextTile]
  simp only [hlastq]
  by_cases hfin : s.mapColsCount - 1 ≤ m.col ∧ s.mapRowsCount - 1 ≤ m.row
  · rw [if_pos hfin, if_pos hfin]
    exact ⟨⟨rfl, hgrid⟩, rfl, rfl⟩
  · rw [if_neg hfin, if_neg hfin]
    by_cases hcol : s.mapColsCount - 1 ≤ m.col
    · have hrow : ¬ s.mapRowsCount - 1 ≤ m.row := fun hr => hfin ⟨hcol, hr⟩
      have hcv := hmval.2
      have hq : tileQuery s.mapRowsCount s.mapColsCount (m.row + 1) 0 =
          some ⟨m.row + 1, 0⟩ := tileQuery_pos (by omega) (by omega)
      have hnxt : (⟨m.row + 1, 0⟩ : Pos) ∉ s.selectedTiles := by
        intro hmem
        rcases hmax _ hmem with h | ⟨h, _⟩ <;> simp at h
      simp only [if_pos hcol, hq]
      refine ⟨⟨⟨m.row + 1, 0⟩, rfl, hnxt, rfl, ?_⟩, rfl, rfl⟩
      intro q
      rw [addToHistory_grid]
      show writeTile (mapTiles (drawTile sprite) s.grid
        (s.selectedTiles.insertionSort rowMajorLE)) ⟨m.row + 1, 0⟩
        (fun t => { t with selectedClass := true }) q = _
      by_cases hqn : q = (⟨m.row + 1, 0⟩ : Pos)
      · subst hqn
        rw [if_pos rfl, writeTile_self, hgrid, if_neg hnxt]
      · rw [if_neg hqn, writeTile_ne _ _ _ hqn, hgrid q]
    · have hcv := hmval.2
      have hq : tileQuery s.mapRowsCount s.mapColsCount m.row (m.col + 1) =
          some ⟨m.row, m.col + 1⟩ := tileQuery_pos hmval.1 (by omega)
      have hnxt : (⟨m.row, m.col + 1⟩ : Pos) ∉ s.selectedTiles := by
        intro hmem
        rcases hmax _ hmem with h | ⟨h, hc⟩
        · simp at h
        · simp at hc
      simp only [if_neg hcol, hq]
      refine ⟨⟨⟨m.row, m.col + 1⟩, rfl, hnxt, rfl, ?_⟩, rfl, rfl⟩
      intro q
      rw [addToHistory_grid]
      show writeTile (mapTiles (drawTile sprite) s.grid
        (s.selectedTiles.insertionSort rowMajorLE)) ⟨m.row, m.col + 1⟩
        (fun t => { t with selectedClass := true }) q = _
      by_cases hqn : q = (⟨m.row, m.col + 1⟩ : Pos)
      · subst hqn
        rw [if_pos rfl, writeTile_self, hgrid, if_neg hnxt]
      · rw [if_neg hqn, writeTile_ne _ _ _ hqn, hgrid q]

end MapEditor

namespace MapEditor

/-! ### Behaviour of the selection passes -/

theorem selectStep_selectedTiles (selecting : Bool) (hits : Pos → Bool)
    (st : EditorState) (p : Pos) :
    (selectStep selecting hits st p).selectedTiles =
      if selecting = false ∧ hits p = true then st.selectedTiles ++ [p]
      else st.selectedTiles := by
  unfold selectStep
  by_cases h1 : p ∉ st.selectedTiles ∧ (st.grid p).selectedClass = true <;>
    by_cases h2 : hits p = true <;>
    cases selecting <;>
    simp [h1, h2]

theorem selectStep_grid_ne (selecting : Bool) (hits : Pos → Bool)
    (st : EditorState) (p : Pos) {q : Pos} (hq : q ≠ p) :
    (selectStep selecting hits st p).grid q = st.grid q := by
  unfold selectStep
  by_cases h1 : p ∉ st.selectedTiles ∧ (st.grid p).selectedClass = true <;>
    by_cases h2 : hits p = true <;>
    cases selecting <;>
    simp [h1, h2, writeTile_ne _ _ _ hq]

theorem selectStep_sprite (selecting : Bool) (hits : Pos → Bool)
    (st : EditorState) (p q : Pos) :
    spriteView ((selectStep selecting hits st p).grid q) = spriteView (st.grid q) := by
  by_cases hq : q = p
  · subst hq
    unfold selectStep
    by_cases h1 : q ∉ st.selectedTiles ∧ (st.grid q).selectedClass = true <;>
      by_cases h2 : hits q = true <;>
      cases selecting <;>
      simp [h1, h2, writeTile, spriteView]
  · rw [selectStep_grid_ne _ _ _ _ hq]

theorem selectStep_class_self (selecting : Bool) (hits : Pos → Bool)
    (st : EditorState) (p : Pos) :
    ((selectStep selecting hits st p).grid p).selectedClass =
      (hits p || ((st.grid p).selectedClass && decide (p ∈ st.selectedTiles))) := by
  unfold selectStep
  by_cases hmem : p ∈ st.selectedTiles <;>
    cases hcl : (st.grid p).selectedClass <;>
    cases hh : hits p <;>
    cases selecting <;>
    simp [hmem, hcl, hh, writeTile]

theorem selectStep_frame (selecting : Bool) (hits : Pos → Bool)
    (st : EditorState) (p : Pos) :
    (selectStep selecting hits st p).mapRowsCount = st.mapRowsCount ∧
      (selectStep selecting hits st p).mapColsCount = st.mapColsCount ∧
      (selectStep selecting hits st p).coppiedTileData = st.coppiedTileData ∧
      (selectStep selecting hits st p).history = st.history ∧
      (selectStep selecting hits st p).currentHistoryIndex = st.currentHistoryIndex := by
  unfold selectStep
  by_cases h1 : p ∉ st.selectedTiles ∧ (st.grid p).selectedClass = true <;>
    by_cases h2 : hits p = true <;>
    cases selecting <;>
    simp [h1, h2]

theorem selectFold_selectedTiles (hits : Pos → Bool) :
    ∀ (L : List Pos) (st : EditorState),
      (L.foldl (selectStep false hits) st).selectedTiles =
        st.selectedTiles ++ L.filter fun p => hits p := by
  intro L
  induction L with
  | nil => intro st; simp
  | cons p T ih =>
    intro st
    rw [List.foldl_cons, ih, selectStep_selectedTiles]
    by_cases hp : hits p = true
    · rw [if_pos ⟨rfl, hp⟩, List.filter_cons_of_pos hp]
      simp
    · have hp' : hits p = false := by
        cases h : hits p
        · rfl
        · exact absurd h hp
      rw [if_neg (by simp [hp']), List.filter_cons_of_neg (by simp [hp'])]

theorem selectFold_grid_not_mem (selecting : Bool) (hits : Pos → Bool) :
    ∀ (L : List Pos) (st : EditorState) {q : Pos}, q ∉ L →
      (L.foldl (selectStep selecting hits) st).grid q = st.grid q := by
  intro L
  induction L with
  | nil => intro st q _; rfl
  | cons p T ih =>
    intro st q hq
    rw [List.foldl_cons, ih _ (fun h => hq (List.mem_cons_of_mem _ h)),
      selectStep_grid_ne _ _ _ _ (fun h => hq (by rw [h]; exact List.mem_cons_self _ _))]

theorem selectFold_sprite (selecting : Bool) (hits : Pos → Bool) :
    ∀ (L : List Pos) (st : EditorState) (q : Pos),
      spriteView ((L.foldl (selectStep selecting hits) st).grid q) =
        spriteView (st.grid q) := by
  intro L
  induction L with
  | nil => intro st q; rfl
  | cons p T ih =>
    intro st q
    rw [List.foldl_cons, ih, selectStep_sprite]

theorem selectFold_class (hits : Pos → Bool) :
    ∀ (L : List Pos) (st : EditorState) {q : Pos}, L.Nodup → q ∈ L →
      ((L.foldl (selectStep false hits) st).grid q).selectedClass =
        (hits q || ((st.grid q).selectedClass && decide (q ∈ st.selectedTiles))) := by
  intro L
  induction L with
  | nil => intro st q _ h; cases h
  | cons p T ih =>
    intro st q hnd hq
    rw [List.foldl_cons]
    rcases List.mem_cons.mp hq with h1 | h1
    · subst h1
      rw [selectFold_grid_not_mem false hits T _ (List.nodup_cons.mp hnd).1,
        selectStep_class_self]
    · have hqp : q ≠ p := fun he => (List.nodup_cons.mp hnd).1 (he ▸ h1)
      rw [ih _ (List.nodup_cons.mp hnd).2 h1, selectStep_grid_ne _ _ _ _ hqp,
        selectStep_selectedTiles]
      by_cases hsel : hits p = true
      · rw [if_pos ⟨rfl, hsel⟩]
        have hdec : decide (q ∈ st.selectedTiles ++ [p]) =
            decide (q ∈ st.selectedTiles) := by
          simp [hqp]
        rw [hdec]
      · rw [if_neg fun hand => hsel hand.2]

theorem selectFold_frame (selecting : Bool) (hits : Pos → Bool) :
    ∀ (L : List Pos) (st : EditorState),
      (L.foldl (selectStep selecting hits) st).mapRowsCount = st.mapRowsCount ∧
        (L.foldl (selectStep selecting hits) st).mapColsCount = st.mapColsCount ∧
        (L.foldl (selectStep selecting hits) st).coppiedTileData = st.coppiedTileData ∧
        (L.foldl (selectStep selecting hits) st).history = st.history ∧
        (L.foldl (selectStep selecting hits) st).currentHistoryIndex =
          st.currentHistoryIndex := by
  intro L
  induction L with
  | nil => intro st; exact ⟨rfl, rfl, rfl, rfl, rfl⟩
  | cons p T ih =>
    intro st
    obtain ⟨f1, f2, f3, f4, f5⟩ := selectStep_frame selecting hits st p
    obtain ⟨g1, g2, g3, g4, g5⟩ := ih (selectStep selecting hits st p)
    rw [List.foldl_cons]
    exact ⟨g1.trans f1, g2.trans f2, g3.trans f3, g4.trans f4, g5.trans f5⟩

theorem selectTiles_final_selectedTiles (s : EditorState) (ctrlDown : Bool)
    (hits : Pos → Bool) :
    (selectTiles s ctrlDown false hits).selectedTiles =
      (if ctrlDown then s.selectedTiles else []) ++
        (docPositions s.mapRowsCount s.mapColsCount).filter fun p => hits p := by
  unfold selectTiles
  cases ctrlDown <;> simp [selectFold_selectedTiles]

theorem selectTiles_final_class (s : EditorState) (ctrlDown : Bool) (hits : Pos → Bool)
    {q : Pos} (hq : validPos s q) :
    ((selectTiles s ctrlDown false hits).grid q).selectedClass =
      (hits q || ((s.grid q).selectedClass &&
        decide (q ∈ (if ctrlDown then s.selectedTiles else [])))) := by
  unfold selectTiles
  have hmem : q ∈ docPositions s.mapRowsCount s.mapColsCount :=
    mem_docPositions.mpr ⟨hq.1, hq.2⟩
  cases ctrlDown <;>
    rw [selectFold_class hits _ _ (nodup_docPositions _ _) hmem] <;>
    simp

theorem mouseDownFold_char (sel : List Pos) :
    ∀ (L : List Pos) (g : Grid),
      (∀ q : Pos, q ∉ L →
        (L.foldl (fun g p =>
          if (g p).selectedClass = true ∧ p ∉ sel then
            writeTile g p (fun t => { t with selectedClass := false })
          else g) g) q = g q) ∧
      (∀ q : Pos, L.Nodup → q ∈ L →
        (L.foldl (fun g p =>
          if (g p).selectedClass = true ∧ p ∉ sel then
            writeTile g p (fun t => { t with selectedClass := false })
          else g) g) q =
          (if (g q).selectedClass = true ∧ q ∉ sel then
            { g q with selectedClass := false } else g q)) := by
  intro L
  induction L with
  | nil =>
    intro g
    exact ⟨fun q _ => rfl, fun q _ h => absurd h (List.not_mem_nil q)⟩
  | cons p T ih =>
    intro g
    constructor
    · intro q hq
      rw [List.foldl_cons]
      have hqp : q ≠ p := fun h => hq (h ▸ List.mem_cons_self _ _)
      rw [(ih _).1 q (fun h => hq (List.mem_cons_of_mem _ h))]
      by_cases hc : (g p).selectedClass = true ∧ p ∉ sel
      · rw [if_pos hc, writeTile_ne _ _ _ hqp]
      · rw [if_neg hc]
    · intro q hnd hq
      rw [List.foldl_cons]
      rcases List.mem_cons.mp hq with h1 | h1
      · subst h1
        rw [(ih _).1 q (List.nodup_cons.mp hnd).1]
        by_cases hc : (g q).selectedClass = true ∧ q ∉ sel
        · rw [if_pos hc, if_pos hc, writeTile_self]
        · rw [if_neg hc, if_neg hc]
      · have hqp : q ≠ p := fun he => (List.nodup_cons.mp hnd).1 (he ▸ h1)
        rw [(ih _).2 q (List.nodup_cons.mp hnd).2 h1]
        by_cases hc : (g p).selectedClass = true ∧ p ∉ sel
        · rw [if_pos hc, writeTile_ne _ _ _ hqp]
        · rw [if_neg hc]

end MapEditor

namespace MapEditor

/-! ### The `mousedown` pass, grids with a row-major maximum, and empty-grid invariants -/

theorem mouseDownPass_selectedTiles (s : EditorState) (ctrlDown : Bool) :
    (mouseDownPass s ctrlDown).selectedTiles =
      if ctrlDown then s.selectedTiles else [] := rfl

theorem mouseDownPass_frame (s : EditorState) (ctrlDown : Bool) :
    (mouseDownPass s ctrlDown).mapRowsCount = s.mapRowsCount ∧
      (mouseDownPass s ctrlDown).mapColsCount = s.mapColsCount := ⟨rfl, rfl⟩

theorem mouseDownPass_class (s : EditorState) (ctrlDown : Bool) {q : Pos}
    (hq : validPos s q) :
    ((mouseDownPass s ctrlDown).grid q).selectedClass =
      ((s.grid q).selectedClass && decide (q ∈ s.selectedTiles)) := by
  have hmem : q ∈ docPositions s.mapRowsCount s.mapColsCount :=
    mem_docPositions.mpr ⟨hq.1, hq.2⟩
  show ((docPositions s.mapRowsCount s.mapColsCount).foldl _ s.grid q).selectedClass = _
  rw [(mouseDownFold_char s.selectedTiles _ s.grid).2 q (nodup_docPositions _ _) hmem]
  by_cases hc : (s.grid q).selectedClass = true ∧ q ∉ s.selectedTiles
  · rw [if_pos hc]
    simp [hc.1, hc.2]
  · rw [if_neg hc]
    by_cases h1 : (s.grid q).selectedClass = true
    · have h2 : q ∈ s.selectedTiles := by
        by_contra h3
        exact hc ⟨h1, h3⟩
      simp [h1, h2]
    · simp [Bool.eq_false_iff.mpr h1]

theorem exists_rowMajor_max {l : List Pos} (h : l ≠ []) :
    ∃ m ∈ l, ∀ p ∈ l, rowMajorLE p m := by
  have hsne := insertionSort_ne_nil h
  have hperm := List.perm_insertionSort rowMajorLE l
  refine ⟨(l.insertionSort rowMajorLE).getLast hsne,
    hperm.mem_iff.mp (List.getLast_mem hsne), fun p hp => ?_⟩
  exact getLast_ub _ hsne (List.sorted_insertionSort rowMajorLE l) p (hperm.mem_iff.mpr hp)

theorem classInv_init_like (rows cols : Nat) (b : Bool) :
    classInv { EditorState.init rows cols with isAutoEnabled := b } := by
  intro p _
  simp [EditorState.init, TileState.empty]

theorem classInv_init (rows cols : Nat) : classInv (EditorState.init rows cols) := by
  intro p _
  simp [EditorState.init, TileState.empty]

end MapEditor

namespace MapEditor

/-! ### The claims -/

/-- C5: for every selection, `copySelected` changes no tile's sprite
reference, and `cutSelected` is exactly `copySelected`, then clearing
the sprite reference of every originally-selected tile, then committing
exactly one history snapshot (the composition `cutSpec`). -/
theorem copy_pure_and_cut_is_copy_then_clear_then_commit (s : EditorState) :
    (∀ q : Pos, spriteView ((copySelected s).grid q) = spriteView (s.grid q)) ∧
      cutSelected s = cutSpec s := by
  constructor
  · intro q
    show spriteView (mapTiles (fun t => { t with selectedClass := false })
      s.grid s.selectedTiles q) = _
    exact mapTiles_field (fun t => { t with selectedClass := false })
      spriteView (fun t => rfl) _ _
  · rfl

/-- C6: `addToHistory` truncates the stack to the cursor, appends a
snapshot, and parks the cursor on the new last index; committing
establishes the cursor-validity invariant, and `undo`/`redo` preserve
it. -/
theorem addToHistory_truncates_and_cursor_stays_valid (s : EditorState) :
    (addToHistory s).history =
        s.history.take (s.currentHistoryIndex + 1) ++ [snapshotRecords s] ∧
      (addToHistory s).currentHistoryIndex = (addToHistory s).history.length - 1 ∧
      histInv (addToHistory s) ∧
      (histInv s → histInv (undo s)) ∧
      (histInv s → histInv (redo s)) := by
  refine ⟨rfl, rfl, ?_, ?_, ?_⟩
  · intro _
    show (addToHistory s).history.length - 1 < (addToHistory s).history.length
    have hl : 1 ≤ (addToHistory s).history.length := by
      rw [addToHistory_history]
      simp
    omega
  · intro hinv
    unfold undo
    by_cases hc : s.currentHistoryIndex ≤ 0
    · rw [if_pos hc]
      exact hinv
    · rw [if_neg hc]
      obtain ⟨f1, _, _, _, _, _, _, f8⟩ := restoreFromHistory_frame
        { s with currentHistoryIndex := s.currentHistoryIndex - 1 }
        (s.currentHistoryIndex - 1)
      intro hne
      rw [f1] at hne ⊢
      rw [f8]
      show s.currentHistoryIndex - 1 < s.history.length
      have := hinv hne
      omega
  · intro hinv
    unfold redo
    by_cases hc : (s.currentHistoryIndex : Int) ≥ (s.history.length : Int) - 1
    · rw [if_pos hc]
      exact hinv
    · rw [if_neg hc]
      obtain ⟨f1, _, _, _, _, _, _, f8⟩ := restoreFromHistory_frame
        { s with currentHistoryIndex := s.currentHistoryIndex + 1 }
        (s.currentHistoryIndex + 1)
      intro hne
      rw [f1] at hne ⊢
      rw [f8]
      show s.currentHistoryIndex + 1 < s.history.length
      omega

/-- Witness for C6 at a concrete state: committing, then undoing and
redoing, keeps the cursor valid. -/
theorem addToHistory_truncates_and_cursor_stays_valid_witness :
    histInv (undo (addToHistory (EditorState.init 2 2))) ∧
      histInv (redo (addToHistory (EditorState.init 2 2))) :=
  ⟨(addToHistory_truncates_and_cursor_stays_valid
      (addToHistory (EditorState.init 2 2))).2.2.2.1 (by decide),
    (addToHistory_truncates_and_cursor_stays_valid
      (addToHistory (EditorState.init 2 2))).2.2.2.2 (by decide)⟩

/-- C9 counterexample: on a 1-by-1 grid, a drag that selects the single
tile followed by an overlapping drag with the multi-select modifier held
leaves the tile twice in the selection set. -/
theorem overlapping_ctrl_drag_duplicates_selection :
    (dragGesture (dragGesture (EditorState.init 1 1) false fun _ => true) true
        fun _ => true).selectedTiles = [⟨0, 0⟩, ⟨0, 0⟩] ∧
      ¬ (dragGesture (dragGesture (EditorState.init 1 1) false fun _ => true) true
        fun _ => true).selectedTiles.Nodup := by
  constructor
  · decide
  · decide

/-- C9 amended: a drag finalized without the multi-select modifier
rebuilds the selection as the duplicate-free document-order list of hit
tiles; with the modifier held, a tile already in the set that the new
drag hits again is appended a second time (see the counterexample). -/
theorem drag_without_modifier_rebuilds_duplicate_free_selection
    (s : EditorState) (hits : Pos → Bool) :
    (dragGesture s false hits).selectedTiles =
        (docPositions s.mapRowsCount s.mapColsCount).filter hits ∧
      (dragGesture s false hits).selectedTiles.Nodup := by
  have h1 : (dragGesture s false hits).selectedTiles =
      (docPositions s.mapRowsCount s.mapColsCount).filter hits := by
    unfold dragGesture
    rw [selectTiles_final_selectedTiles]
    simp [mouseDownPass_frame]
  exact ⟨h1, h1 ▸ (nodup_docPositions _ _).filter hits⟩

/-- C7 counterexample: `cutSelected` invoked on the freshly-initialized
2-by-2 grid, whose selection is empty, still commits a history
snapshot. -/
theorem cut_with_empty_selection_still_commits :
    (EditorState.init 2 2).selectedTiles = [] ∧
      (EditorState.init 2 2).history.length = 0 ∧
      (cutSelected (EditorState.init 2 2)).history.length = 1 := by
  refine ⟨rfl, rfl, ?_⟩
  decide

/-- C7 amended: `drawMap` on an empty selection and `paste` on an empty
clipboard or without an anchor are complete no-ops; `copySelected` on an
empty selection changes no tile and commits no snapshot (it resets the
clipboard to empty); but `cutSelected` on an empty selection, while
changing no tile, still commits one history snapshot. -/
theorem empty_input_operations_mostly_skip (s : EditorState) :
    (s.selectedTiles = [] → ∀ sprite, drawMap s sprite = s) ∧
      (s.coppiedTileData = [] → paste s = s) ∧
      (s.tileUnderCoursor = none → paste s = s) ∧
      (s.selectedTiles = [] →
        (∀ q : Pos, (copySelected s).grid q = s.grid q) ∧
          (copySelected s).history = s.history ∧
          (copySelected s).currentHistoryIndex = s.currentHistoryIndex ∧
          (copySelected s).coppiedTileData = []) ∧
      (s.selectedTiles = [] →
        (∀ q : Pos, (cutSelected s).grid q = s.grid q) ∧
          (cutSelected s).history =
            s.history.take (s.currentHistoryIndex + 1) ++ [snapshotRecords s]) := by
  refine ⟨?_, ?_, ?_, ?_, ?_⟩
  · intro h sprite
    exact drawMap_guard h sprite
  · intro h
    unfold paste
    rw [h]
  · intro h
    unfold paste
    rw [h]
    rcases s.coppiedTileData with _ | ⟨f, r⟩ <;> rfl
  · intro h
    unfold copySelected
    rw [h]
    exact ⟨fun q => rfl, rfl, rfl, rfl⟩
  · intro h
    unfold cutSelected copySelected
    rw [h]
    exact ⟨fun q => rfl, rfl⟩

/-- Witness for C7 (amended) at the freshly-initialized 1-by-1 grid,
where the selection and clipboard are empty and no tile is hovered. -/
theorem empty_input_operations_mostly_skip_witness :
    drawMap (EditorState.init 1 1) "-1px -1px" = EditorState.init 1 1 ∧
      paste (EditorState.init 1 1) = EditorState.init 1 1 ∧
      (copySelected (EditorState.init 1 1)).history = (EditorState.init 1 1).history ∧
      (cutSelected (EditorState.init 1 1)).history =
        (EditorState.init 1 1).history.take
            ((EditorState.init 1 1).currentHistoryIndex + 1) ++
          [snapshotRecords (EditorState.init 1 1)] :=
  ⟨(empty_input_operations_mostly_skip (EditorState.init 1 1)).1 rfl _,
    (empty_input_operations_mostly_skip (EditorState.init 1 1)).2.1 rfl,
    ((empty_input_operations_mostly_skip (EditorState.init 1 1)).2.2.2.1 rfl).2.1,
    ((empty_input_operations_mostly_skip (EditorState.init 1 1)).2.2.2.2 rfl).2⟩

end MapEditor

namespace MapEditor

/-- C10: `undo` and `redo` leave the history entries, the clipboard, the
selection and the paste anchor untouched and never change a tile's
`"selected"` class; the only state they change is the cursor and the
tiles' sprite state, restored from the snapshot at the new cursor. -/
theorem undo_redo_only_move_cursor_and_restore (s : EditorState) :
    (undo s).history = s.history ∧ (redo s).history = s.history ∧
      (undo s).coppiedTileData = s.coppiedTileData ∧
      (redo s).coppiedTileData = s.coppiedTileData ∧
      (undo s).selectedTiles = s.selectedTiles ∧
      (redo s).selectedTiles = s.selectedTiles ∧
      (undo s).tileUnderCoursor = s.tileUnderCoursor ∧
      (redo s).tileUnderCoursor = s.tileUnderCoursor ∧
      (∀ q : Pos, ((undo s).grid q).selectedClass = (s.grid q).selectedClass) ∧
      (∀ q : Pos, ((redo s).grid q).selectedClass = (s.grid q).selectedClass) ∧
      (0 < s.currentHistoryIndex →
        (undo s).currentHistoryIndex = s.currentHistoryIndex - 1 ∧
          ∀ st, s.history.get? (s.currentHistoryIndex - 1) = some st →
            (undo s).grid = restoreGrid s.mapRowsCount s.mapColsCount s.grid st) ∧
      ((s.currentHistoryIndex : Int) < (s.history.length : Int) - 1 →
        (redo s).currentHistoryIndex = s.currentHistoryIndex + 1 ∧
          ∀ st, s.history.get? (s.currentHistoryIndex + 1) = some st →
            (redo s).grid = restoreGrid s.mapRowsCount s.mapColsCount s.grid st) := by
  obtain ⟨u1, u2, u3, u4, _, _, _⟩ := undo_frame s
  obtain ⟨r1, r2, r3, r4, _, _, _⟩ := redo_frame s
  refine ⟨u1, r1, u2, r2, u3, r3, u4, r4, ?_, ?_, ?_, ?_⟩
  · intro q
    unfold undo
    by_cases hc : s.currentHistoryIndex ≤ 0
    · rw [if_pos hc]
    · rw [if_neg hc]
      unfold restoreFromHistory
      rcases hget : ({ s with currentHistoryIndex := s.currentHistoryIndex - 1 } :
          EditorState).history.get? (s.currentHistoryIndex - 1) with _ | st <;>
        simp only [hget]
      all_goals first
        | rfl
        | exact restoreGrid_class _ _ _ _ _
  · intro q
    unfold redo
    by_cases hc : (s.currentHistoryIndex : Int) ≥ (s.history.length : Int) - 1
    · rw [if_pos hc]
    · rw [if_neg hc]
      unfold restoreFromHistory
      rcases hget : ({ s with currentHistoryIndex := s.currentHistoryIndex + 1 } :
          EditorState).history.get? (s.currentHistoryIndex + 1) with _ | st <;>
        simp only [hget]
      all_goals first
        | rfl
        | exact restoreGrid_class _ _ _ _ _
  · intro hpos
    have hc : ¬ s.currentHistoryIndex ≤ 0 := by omega
    constructor
    · unfold undo
      rw [if_neg hc]
      exact (restoreFromHistory_frame _ _).2.2.2.2.2.2.2
    · intro st hst
      unfold undo
      rw [if_neg hc]
      unfold restoreFromHistory
      have hst' : ({ s with currentHistoryIndex := s.currentHistoryIndex - 1 } :
          EditorState).history.get? (s.currentHistoryIndex - 1) = some st := hst
      simp only [hst']
  · intro hlt
    have hc : ¬ (s.currentHistoryIndex : Int) ≥ (s.history.length : Int) - 1 := by omega
    constructor
    · unfold redo
      rw [if_neg hc]
      exact (restoreFromHistory_frame _ _).2.2.2.2.2.2.2
    · intro st hst
      unfold redo
      rw [if_neg hc]
      unfold restoreFromHistory
      have hst' : ({ s with currentHistoryIndex := s.currentHistoryIndex + 1 } :
          EditorState).history.get? (s.currentHistoryIndex + 1) = some st := hst
      simp only [hst']

/-- Witness for C10 at a concrete state with the cursor strictly between
the ends: three commits followed by one undo. -/
theorem undo_redo_only_move_cursor_and_restore_witness :
    (undo (undo (addToHistory (addToHistory (addToHistory
          (EditorState.init 1 1)))))).currentHistoryIndex =
        (undo (addToHistory (addToHistory (addToHistory
          (EditorState.init 1 1))))).currentHistoryIndex - 1 ∧
      (redo (undo (addToHistory (addToHistory (addToHistory
          (EditorState.init 1 1)))))).currentHistoryIndex =
        (undo (addToHistory (addToHistory (addToHistory
          (EditorState.init 1 1))))).currentHistoryIndex + 1 :=
  ⟨((undo_redo_only_move_cursor_and_restore
      (undo (addToHistory (addToHistory (addToHistory
        (EditorState.init 1 1)))))).2.2.2.2.2.2.2.2.2.2.1 (by decide)).1,
    ((undo_redo_only_move_cursor_and_restore
      (undo (addToHistory (addToHistory (addToHistory
        (EditorState.init 1 1)))))).2.2.2.2.2.2.2.2.2.2.2 (by decide)).1⟩

theorem paste_eq {s : EditorState} {anchor : Pos} {first : TileRecord}
    {rest : List TileRecord} (hcd : s.coppiedTileData = first :: rest)
    (ha : s.tileUnderCoursor = some anchor) :
    paste s = addToHistory { s with
      grid := keyedFold (pasteTarget s.mapRowsCount s.mapColsCount anchor first)
        writeRec s.grid (first :: rest) } := by
  unfold paste
  rw [hcd, ha]

/-- C3: `paste` is a no-op without clipboard content or anchor;
otherwise every entry is written at the anchor plus its offset from the
first entry, out-of-bounds targets are skipped without affecting the
others (tiles targeted by no entry are untouched), and exactly one
history snapshot is committed after all entries are applied. -/
theorem paste_writes_offsets_skips_out_of_bounds_commits_once (s : EditorState) :
    (s.coppiedTileData = [] → paste s = s) ∧
      (s.tileUnderCoursor = none → paste s = s) ∧
      ∀ (anchor : Pos) (first : TileRecord) (rest : List TileRecord),
        s.coppiedTileData = first :: rest → s.tileUnderCoursor = some anchor →
        (paste s).history.length =
            (s.history.take (s.currentHistoryIndex + 1)).length + 1 ∧
          (paste s).currentHistoryIndex = (paste s).history.length - 1 ∧
          (∀ q : Pos,
            (∀ data ∈ s.coppiedTileData,
              pasteTarget s.mapRowsCount s.mapColsCount anchor first data ≠ some q) →
            (paste s).grid q = s.grid q) ∧
          (∀ (L1 : List TileRecord) (data : TileRecord) (L2 : List TileRecord),
            s.coppiedTileData = L1 ++ data :: L2 →
            ∀ q : Pos,
              pasteTarget s.mapRowsCount s.mapColsCount anchor first data = some q →
              (∀ d2 ∈ L2,
                pasteTarget s.mapRowsCount s.mapColsCount anchor first d2 ≠ some q) →
              spriteView ((paste s).grid q) = (data.bg, data.bgPos)) := by
  refine ⟨?_, ?_, ?_⟩
  · intro h
    unfold paste
    rw [h]
  · intro h
    unfold paste
    rw [h]
    rcases s.coppiedTileData with _ | ⟨f, r⟩ <;> rfl
  · intro anchor first rest hcd ha
    rw [paste_eq hcd ha]
    refine ⟨?_, rfl, ?_, ?_⟩
    · rw [addToHistory_history]
      simp
    · intro q hq
      rw [addToHistory_grid]
      show keyedFold _ writeRec s.grid (first :: rest) q = s.grid q
      rw [keyedFold_not_target _ _ _ _ (hcd ▸ hq)]
    · intro L1 data L2 hsplit q hdata hlater
      rw [addToHistory_grid]
      show spriteView (keyedFold _ writeRec s.grid (first :: rest) q) = _
      rw [← hcd, hsplit,
        keyedFold_last_write _ writeRec s.grid L1 data L2 hdata hlater, writeRec_eq]
      rfl

/-- Witness for C3: paste a one-entry clipboard captured at tile (0,0)
of a 2-by-2 grid onto the anchor (0,1). -/
theorem paste_writes_offsets_skips_out_of_bounds_commits_once_witness :
    spriteView ((paste { copySelected (dragGesture (EditorState.init 2 2) false
        fun p => p == ⟨0, 0⟩) with tileUnderCoursor := some ⟨0, 1⟩ }).grid ⟨0, 1⟩) =
      (("" : String), ("" : String)) :=
  ((paste_writes_offsets_skips_out_of_bounds_commits_once
      { copySelected (dragGesture (EditorState.init 2 2) false
        fun p => p == ⟨0, 0⟩) with tileUnderCoursor := some ⟨0, 1⟩ }).2.2
    ⟨0, 1⟩ ⟨0, 0, "", ""⟩ [] (by decide) rfl).2.2.2 [] ⟨0, 0, "", ""⟩ []
    (by decide) ⟨0, 1⟩ (by decide) (fun d2 h => absurd h (List.not_mem_nil d2))

end MapEditor

namespace MapEditor

theorem computedBgPos_cases (t : TileState) :
    computedBgPos t = "0% 0%" ∨
      (computedBgPos t = t.bgPos ∧ t.bgPos ≠ "" ∧ t.bgPos ≠ "initial") := by
  unfold computedBgPos
  by_cases h1 : t.bgPos = ""
  · left; simp [h1]
  · by_cases h2 : t.bgPos = "initial"
    · left; simp [h2]
    · right; simp [h1, h2]

theorem importKey_export (rows cols : Nat) {q : Pos}
    (hr : q.row < rows) (hc : q.col < cols) (v : String) (idv : Nat) :
    importKey rows cols (ExportTile.mk idv v (Nat.repr q.col) (Nat.repr q.row)) =
      if v ≠ "0% 0%" then some q else none := by
  unfold importKey
  dsimp only
  rw [findTileByAttrs_self hr hc]

theorem importWrite_eq (t : TileState) (v : String) :
    setBgPos (setShort t bgUrl) v = ⟨bgUrl, v, t.selectedClass⟩ := by
  simp [setShort, setBgPos, bgUrl, spritesAsset]

/-- C2: exporting with `createMapJSON` and importing the records into a
freshly-initialized grid of the same dimensions reproduces every tile's
sprite assignment; import leaves tiles matched by no applicable record
untouched, treats `"0% 0%"` and unmatched records as inapplicable, and
commits no history snapshot. -/
theorem export_import_roundtrip (s : EditorState) :
    (∀ p : Pos, p.row < s.mapRowsCount → p.col < s.mapColsCount →
      spriteAssignment ((loadMapFromFile
          (EditorState.init s.mapRowsCount s.mapColsCount)
          (createMapJSON s)).grid p) =
        spriteAssignment (s.grid p)) ∧
      (∀ (s' : EditorState) (mapData : List ExportTile),
        (loadMapFromFile s' mapData).history = s'.history ∧
          (loadMapFromFile s' mapData).currentHistoryIndex = s'.currentHistoryIndex) ∧
      (∀ (s' : EditorState) (mapData : List ExportTile) (q : Pos),
        (∀ rec ∈ mapData, importKey s'.mapRowsCount s'.mapColsCount rec ≠ some q) →
        (loadMapFromFile s' mapData).grid q = s'.grid q) ∧
      (∀ (rows cols : Nat) (rec : ExportTile), rec.bgPosition = "0% 0%" →
        importKey rows cols rec = none) ∧
      (∀ (rows cols : Nat) (rec : ExportTile),
        findTileByAttrs rows cols rec.col rec.row = none →
        importKey rows cols rec = none) := by
  refine ⟨?_, fun s' mapData => ⟨rfl, rfl⟩, ?_, ?_, ?_⟩
  · intro p hr hc
    have hgoal : (loadMapFromFile (EditorState.init s.mapRowsCount s.mapColsCount)
        (createMapJSON s)).grid =
        keyedFold (importKey s.mapRowsCount s.mapColsCount)
          (fun tileData t => setBgPos (setShort t bgUrl) tileData.bgPosition)
          (fun _ => TileState.empty) (createMapJSON s) := rfl
    rw [hgoal]
    by_cases hsent : computedBgPos (s.grid p) = "0% 0%"
    · have hall : ∀ rec ∈ createMapJSON s,
          importKey s.mapRowsCount s.mapColsCount rec ≠ some p := by
        intro rec hrec hkey
        unfold createMapJSON at hrec
        simp only [List.mem_map] at hrec
        obtain ⟨q, hq, hqrec⟩ := hrec
        subst hqrec
        obtain ⟨hqr, hqc⟩ := mem_docPositions.mp hq
        rw [importKey_export _ _ hqr hqc] at hkey
        by_cases hqs : computedBgPos (s.grid q) ≠ "0% 0%"
        · rw [if_pos hqs] at hkey
          have hqp : q = p := Option.some.inj hkey
          exact hqs (hqp ▸ hsent)
        · rw [if_neg hqs] at hkey
          exact Option.noConfusion hkey
      rw [keyedFold_not_target _ _ _ _ hall]
      have h1 : spriteAssignment TileState.empty = none := rfl
      have h2 : spriteAssignment (s.grid p) = none := by
        simp [spriteAssignment, hsent]
      rw [h1, h2]
    · rcases computedBgPos_cases (s.grid p) with h | ⟨hv, hv1, hv2⟩
      · exact absurd h hsent
      · have hp : p ∈ docPositions s.mapRowsCount s.mapColsCount :=
          mem_docPositions.mpr ⟨hr, hc⟩
        rcases List.append_of_mem hp with ⟨L1, L2, hL⟩
        have hnd : (docPositions s.mapRowsCount s.mapColsCount).Nodup :=
          nodup_docPositions _ _
        rw [hL] at hnd
        have hpL2 : p ∉ L2 := (List.nodup_cons.mp hnd.of_append_right).1
        have hrecs : createMapJSON s =
            (L1.map fun q => ExportTile.mk (q.row * s.mapColsCount + q.col)
              (computedBgPos (s.grid q)) (Nat.repr q.col) (Nat.repr q.row)) ++
            ExportTile.mk (p.row * s.mapColsCount + p.col)
              (computedBgPos (s.grid p)) (Nat.repr p.col) (Nat.repr p.row) ::
            (L2.map fun q => ExportTile.mk (q.row * s.mapColsCount + q.col)
              (computedBgPos (s.grid q)) (Nat.repr q.col) (Nat.repr q.row)) := by
          unfold createMapJSON
          rw [hL, List.map_append, List.map_cons]
        rw [hrecs]
        rw [keyedFold_last_write _ _ _ _ _ _
          (by
            rw [importKey_export _ _ hr hc, if_pos hsent])
          (by
            intro b' hb' hkey
            simp only [List.mem_map] at hb'
            obtain ⟨q, hq2, hqb⟩ := hb'
            subst hqb
            have hq2doc : q ∈ docPositions s.mapRowsCount s.mapColsCount := by
              rw [hL]
              exact List.mem_append_right _ (List.mem_cons_of_mem _ hq2)
            obtain ⟨hqr, hqc⟩ := mem_docPositions.mp hq2doc
            rw [importKey_export _ _ hqr hqc] at hkey
            by_cases hqs : computedBgPos (s.grid q) ≠ "0% 0%"
            · rw [if_pos hqs] at hkey
              exact hpL2 ((Option.some.inj hkey) ▸ hq2)
            · rw [if_neg hqs] at hkey
              exact Option.noConfusion hkey)]
        dsimp only
        rw [importWrite_eq]
        rw [hv]
        simp [spriteAssignment, computedBgPos, hv1, hv2, hv ▸ hsent]
  · intro s' mapData q hq
    show keyedFold _ _ s'.grid mapData q = s'.grid q
    rw [keyedFold_not_target _ _ _ _ hq]
  · intro rows cols rec hrec
    unfold importKey
    rcases h : findTileByAttrs rows cols rec.col rec.row with _ | pp
    · rfl
    · simp [hrec]
  · intro rows cols rec h
    unfold importKey
    rw [h]

/-- Witness for C2: round-trip of a 2-by-2 grid with one drawn tile. -/
theorem export_import_roundtrip_witness :
    spriteAssignment ((loadMapFromFile (EditorState.init 2 2)
        (createMapJSON (drawMap (dragGesture (EditorState.init 2 2) false
          fun p => p == ⟨0, 0⟩) "-1px -1px"))).grid ⟨0, 0⟩) =
      spriteAssignment ((drawMap (dragGesture (EditorState.init 2 2) false
        fun p => p == ⟨0, 0⟩) "-1px -1px").grid ⟨0, 0⟩) :=
  (export_import_roundtrip (drawMap (dragGesture (EditorState.init 2 2) false
    fun p => p == ⟨0, 0⟩) "-1px -1px")).1 ⟨0, 0⟩ (by decide) (by decide)

end MapEditor

namespace MapEditor

/-- C4: with auto-advance enabled, a non-empty selection of existing
tiles is processed in row-major order (its row-major greatest element
`m` is the last-processed tile), every selected tile receives the
sprite, and afterwards the selection holds exactly the cell following
`m` in row-major order — or becomes empty when `m` is the grid's final
cell. -/
theorem auto_advance_selects_successor_or_empties (s : EditorState) (sprite : String)
    (m : Pos) (hauto : s.isAutoEnabled = true) (hne : s.selectedTiles ≠ [])
    (hval : ∀ p ∈ s.selectedTiles, validPos s p)
    (hm : m ∈ s.selectedTiles) (hmax : ∀ p ∈ s.selectedTiles, rowMajorLE p m) :
    (∀ p ∈ s.selectedTiles, spriteView ((drawMap s sprite).grid p) = (bgUrl, sprite)) ∧
      (s.mapColsCount - 1 ≤ m.col ∧ s.mapRowsCount - 1 ≤ m.row →
        (drawMap s sprite).selectedTiles = []) ∧
      (¬ (s.mapColsCount - 1 ≤ m.col ∧ s.mapRowsCount - 1 ≤ m.row) →
        (drawMap s sprite).selectedTiles =
          [if s.mapColsCount - 1 ≤ m.col then (⟨m.row + 1, 0⟩ : Pos)
            else ⟨m.row, m.col + 1⟩]) := by
  obtain ⟨hcase, _, _⟩ := drawMap_auto_char sprite hne hauto hval hm hmax
  by_cases hfin : s.mapColsCount - 1 ≤ m.col ∧ s.mapRowsCount - 1 ≤ m.row
  · rw [if_pos hfin] at hcase
    obtain ⟨hsel, hgrid⟩ := hcase
    refine ⟨?_, fun _ => hsel, fun h => absurd hfin h⟩
    intro p hp
    rw [hgrid p, if_pos hp]
    rfl
  · rw [if_neg hfin] at hcase
    obtain ⟨nxt, hnxtdef, hnxtnot, hsel, hgrid⟩ := hcase
    refine ⟨?_, fun h => absurd h hfin, fun _ => by rw [hsel, hnxtdef]⟩
    intro p hp
    rw [hgrid p, if_neg fun (he : p = nxt) => hnxtnot (he ▸ hp), if_pos hp]
    rfl

/-- Witness for C4: drawing at the last column of the first row of a
2-by-2 grid advances the selection to the first cell of the next row. -/
theorem auto_advance_selects_successor_or_empties_witness :
    (drawMap { dragGesture (EditorState.init 2 2) false
        (fun p => p == ⟨0, 1⟩) with isAutoEnabled := true }
      "-1px -1px").selectedTiles = [⟨1, 0⟩] := by
  have h := (auto_advance_selects_successor_or_empties
    { dragGesture (EditorState.init 2 2) false (fun p => p == ⟨0, 1⟩) with
      isAutoEnabled := true }
    "-1px -1px" ⟨0, 1⟩ rfl (by decide) (by decide) (by decide) (by decide)).2.2
    (by decide)
  rw [h]
  decide

theorem selectTiles_frame (s' : EditorState) (c sel : Bool) (hits : Pos → Bool) :
    (selectTiles s' c sel hits).mapRowsCount = s'.mapRowsCount ∧
      (selectTiles s' c sel hits).mapColsCount = s'.mapColsCount := by
  unfold selectTiles
  cases c
  · obtain ⟨a, b, _, _, _⟩ := selectFold_frame sel hits
      (docPositions s'.mapRowsCount s'.mapColsCount) { s' with selectedTiles := ([] : List Pos) }
    exact ⟨a, b⟩
  · obtain ⟨a, b, _, _, _⟩ := selectFold_frame sel hits
      (docPositions s'.mapRowsCount s'.mapColsCount) s'
    exact ⟨a, b⟩

theorem dragGesture_frame (s : EditorState) (ctrl : Bool) (hits : Pos → Bool) :
    (dragGesture s ctrl hits).mapRowsCount = s.mapRowsCount ∧
      (dragGesture s ctrl hits).mapColsCount = s.mapColsCount := by
  unfold dragGesture
  obtain ⟨a, b⟩ := selectTiles_frame (mouseDownPass s ctrl) ctrl false hits
  exact ⟨a, b⟩

/-- C8 counterexample: after selecting the only tile of a 1-by-1 grid
the marker invariant holds, but `copySelected` removes the visual
marker while leaving the tile in the selection set. -/
theorem copy_breaks_selected_marker_invariant :
    classInv (dragGesture (EditorState.init 1 1) false fun _ => true) ∧
      ¬ classInv (copySelected (dragGesture (EditorState.init 1 1) false
        fun _ => true)) := by
  constructor
  · intro p hp
    have hp' : p.row < 1 ∧ p.col < 1 := hp
    have hpe : p = ⟨0, 0⟩ := by
      obtain ⟨ha, hb⟩ := hp'
      have h1 : p.row = 0 := by omega
      have h2 : p.col = 0 := by omega
      cases p
      simp only at h1 h2
      subst h1
      subst h2
      rfl
    subst hpe
    decide
  · intro h
    have h1 := (h ⟨0, 0⟩ (by decide)).mpr (by decide)
    exact absurd h1 (by decide)

/-- C8 amended: the marker invariant is preserved by a finalized drag
gesture, by `drawMap` (with auto-advance off or on), and by the
`Delete` handler; `copySelected` and hence `cutSelected` break it by
removing the marker from tiles that stay in the selection set (see the
counterexample). -/
theorem selection_marker_invariant_preserved_except_copy_cut (s : EditorState) :
    (classInv s → ∀ (ctrl : Bool) (hits : Pos → Bool),
        classInv (dragGesture s ctrl hits)) ∧
      (classInv s → s.isAutoEnabled = false → ∀ sprite,
        classInv (drawMap s sprite)) ∧
      (classInv s → s.isAutoEnabled = true →
        (∀ p ∈ s.selectedTiles, validPos s p) → ∀ sprite,
        classInv (drawMap s sprite)) ∧
      (classInv s → classInv (deleteSelected s)) := by
  refine ⟨?_, ?_, ?_, ?_⟩
  · intro hinv ctrl hits p hp
    obtain ⟨hdr, hdc⟩ := dragGesture_frame s ctrl hits
    have hp' : validPos s p := ⟨hdr ▸ hp.1, hdc ▸ hp.2⟩
    have hpmdp : validPos (mouseDownPass s ctrl) p := hp'
    show ((selectTiles (mouseDownPass s ctrl) ctrl false hits).grid p).selectedClass =
      true ↔ p ∈ (selectTiles (mouseDownPass s ctrl) ctrl false hits).selectedTiles
    rw [selectTiles_final_class _ _ _ hpmdp, selectTiles_final_selectedTiles,
      mouseDownPass_class s ctrl hp', mouseDownPass_selectedTiles,
      (mouseDownPass_frame s ctrl).1, (mouseDownPass_frame s ctrl).2]
    have hdoc : p ∈ docPositions s.mapRowsCount s.mapColsCount :=
      mem_docPositions.mpr ⟨hp'.1, hp'.2⟩
    cases ctrl
    · simp [hdoc]
    · have hiff := hinv p hp'
      by_cases hmem : p ∈ s.selectedTiles
      · have hcl : (s.grid p).selectedClass = true := hiff.mpr hmem
        simp [hcl, hmem]
      · have hcl : (s.grid p).selectedClass = false := by
          cases hc2 : (s.grid p).selectedClass
          · rfl
          · exact absurd (hiff.mp hc2) hmem
        simp [hcl, hmem, hdoc]
  · intro hinv hoff sprite
    by_cases hne : s.selectedTiles = []
    · rw [drawMap_guard hne]
      exact hinv
    · obtain ⟨hsel, hgrid, _, hdr, hdc⟩ := drawMap_off_char sprite hne hoff
      intro p hp
      have hp' : validPos s p := ⟨hdr ▸ hp.1, hdc ▸ hp.2⟩
      rw [hgrid p, hsel]
      by_cases hmem : p ∈ s.selectedTiles
      · simp [hmem]
      · rw [if_neg hmem]
        simp only [List.not_mem_nil, iff_false]
        intro hc
        exact hmem ((hinv p hp').mp hc)
  · intro hinv hauto hval sprite
    by_cases hne : s.selectedTiles = []
    · rw [drawMap_guard hne]
      exact hinv
    · obtain ⟨m, hm, hmax⟩ := exists_rowMajor_max hne
      obtain ⟨hcase, hdr, hdc⟩ := drawMap_auto_char sprite hne hauto hval hm hmax
      by_cases hfin : s.mapColsCount - 1 ≤ m.col ∧ s.mapRowsCount - 1 ≤ m.row
      · rw [if_pos hfin] at hcase
        obtain ⟨hsel, hgrid⟩ := hcase
        intro p hp
        have hp' : validPos s p := ⟨hdr ▸ hp.1, hdc ▸ hp.2⟩
        rw [hgrid p, hsel]
        by_cases hmem : p ∈ s.selectedTiles
        · simp [hmem]
        · rw [if_neg hmem]
          simp only [List.not_mem_nil, iff_false]
          intro hc
          exact hmem ((hinv p hp').mp hc)
      · rw [if_neg hfin] at hcase
        obtain ⟨nxt, _, hnxtnot, hsel, hgrid⟩ := hcase
        intro p hp
        have hp' : validPos s p := ⟨hdr ▸ hp.1, hdc ▸ hp.2⟩
        rw [hgrid p, hsel]
        by_cases hpn : p = nxt
        · subst hpn
          simp
        · rw [if_neg hpn]
          by_cases hmem : p ∈ s.selectedTiles
          · simp [hmem, hpn]
          · rw [if_neg hmem]
            simp only [List.mem_singleton, hpn, iff_false]
            intro hc
            exact hmem ((hinv p hp').mp hc)
  · intro hinv p hp
    have hp' : validPos s p := hp
    have hf : ∀ t : TileState,
        ({ setShort t "transparent" with selectedClass := false } : TileState) =
          ⟨"transparent", "initial", false⟩ := by
      intro t
      simp [setShort]
    show ((mapTiles (fun t => { setShort t "transparent" with selectedClass := false })
        s.grid s.selectedTiles) p).selectedClass = true ↔ p ∈ ([] : List Pos)
    rw [mapTiles_apply _ (by intro t; rw [hf, hf])]
    by_cases hmem : p ∈ s.selectedTiles
    · simp [hmem, hf]
    · rw [if_neg hmem]
      simp only [List.not_mem_nil, iff_false]
      intro hc
      exact hmem ((hinv p hp').mp hc)

/-- Witness for C8 (amended) starting from freshly-initialized states,
whose invariant holds trivially. -/
theorem selection_marker_invariant_preserved_except_copy_cut_witness :
    classInv (dragGesture (EditorState.init 2 2) false fun _ => true) ∧
      classInv (drawMap (EditorState.init 2 2) "-1px -1px") ∧
      classInv (drawMap { EditorState.init 2 2 with isAutoEnabled := true }
        "-1px -1px") ∧
      classInv (deleteSelected (EditorState.init 2 2)) :=
  ⟨(selection_marker_invariant_preserved_except_copy_cut
      (EditorState.init 2 2)).1 (classInv_init 2 2) false _,
    (selection_marker_invariant_preserved_except_copy_cut
      (EditorState.init 2 2)).2.1 (classInv_init 2 2) rfl _,
    (selection_marker_invariant_preserved_except_copy_cut
      { EditorState.init 2 2 with isAutoEnabled := true }).2.2.1
      (classInv_init_like 2 2 true) rfl
      (fun p hp => absurd hp (List.not_mem_nil p)) _,
    (selection_marker_invariant_preserved_except_copy_cut
      (EditorState.init 2 2)).2.2.2 (classInv_init 2 2)⟩

end MapEditor

namespace MapEditor

theorem get?_zero_of_ne_nil {α : Type} (l : List α) (h : l ≠ []) :
    l.get? 0 = some (l.head h) := by
  cases l
  · exact absurd rfl h
  · rfl

theorem get?_pred_length {α : Type} :
    ∀ (l : List α) (h : l ≠ []), l.get? (l.length - 1) = some (l.getLast h) := by
  intro l
  induction l with
  | nil => intro h; exact absurd rfl h
  | cons a t ih =>
    intro h
    cases t with
    | nil => rfl
    | cons b t' =>
      have htne : b :: t' ≠ [] := by simp
      have hlen : (a :: b :: t').length - 1 = ((b :: t').length - 1) + 1 := by
        simp only [List.length_cons]
        omega
      rw [hlen]
      show (b :: t').get? ((b :: t').length - 1) = _
      rw [ih htne, List.getLast_cons htne]

theorem getLastD_of_ne_nil {α : Type} (l : List α) (h : l ≠ []) (d : α) :
    l.getLastD d = l.getLast h := by
  rw [List.getLastD_eq_getLast?, List.getLast?_eq_getLast l h]
  rfl

/-- C1 counterexample: on a fresh 3-by-3 grid, selecting the four tiles
(0,0)-(1,1) and drawing leaves a single history entry (there is no
initial snapshot), and `undo` is then a no-op, so the tiles stay
painted instead of reverting to empty. -/
theorem first_draw_leaves_one_entry_and_undo_cannot_revert :
    (drawMap (dragGesture (EditorState.init 3 3) false fun p =>
        decide (p.row ≤ 1 ∧ p.col ≤ 1)) "-1px -1px").history.length = 1 ∧
      (undo (drawMap (dragGesture (EditorState.init 3 3) false fun p =>
        decide (p.row ≤ 1 ∧ p.col ≤ 1)) "-1px -1px")).currentHistoryIndex = 0 ∧
      ((undo (drawMap (dragGesture (EditorState.init 3 3) false fun p =>
        decide (p.row ≤ 1 ∧ p.col ≤ 1)) "-1px -1px")).grid ⟨0, 0⟩).bgPos =
        "-1px -1px" ∧
      ((undo (drawMap (dragGesture (EditorState.init 3 3) false fun p =>
        decide (p.row ≤ 1 ∧ p.col ≤ 1)) "-1px -1px")).grid ⟨0, 0⟩).bg ≠ "" := by
  refine ⟨?_, ?_, ?_, ?_⟩ <;> decide

/-- C1 amended: starting from a fresh grid, N committed mutations leave
N history entries (not N+1: no initial snapshot is recorded); N calls
of `undo` stop at the snapshot of the first mutation — the grid is the
state just after the first mutation, not the pre-mutation empty state —
and N calls of `redo` then restore the final state. -/
theorem undo_stops_at_first_mutation_redo_restores_final
    (rows cols : Nat) (gs : List Grid) (hne : gs ≠ []) :
    (applyMuts (EditorState.init rows cols) gs).history.length = gs.length ∧
      (undo^[gs.length]
          (applyMuts (EditorState.init rows cols) gs)).currentHistoryIndex = 0 ∧
      (∀ p : Pos, p.row < rows → p.col < cols →
        spriteView ((undo^[gs.length]
            (applyMuts (EditorState.init rows cols) gs)).grid p) =
          spriteView (gs.head hne p)) ∧
      (redo^[gs.length] (undo^[gs.length]
          (applyMuts (EditorState.init rows cols) gs))).currentHistoryIndex =
        gs.length - 1 ∧
      (∀ p : Pos, p.row < rows → p.col < cols →
        spriteView ((redo^[gs.length] (undo^[gs.length]
            (applyMuts (EditorState.init rows cols) gs))).grid p) =
          spriteView (gs.getLast hne p)) := by
  have hN : 1 ≤ gs.length := List.length_pos.mpr hne
  have hEnd : atEnd (EditorState.init rows cols) := rfl
  obtain ⟨h1, h2, h3, h4, h5, _⟩ := applyMuts_char gs (EditorState.init rows cols) hEnd
  have hh : (applyMuts (EditorState.init rows cols) gs).history =
      gs.map (snapGrid rows cols) := by
    rw [h1]
    rfl
  have hSr : (applyMuts (EditorState.init rows cols) gs).mapRowsCount = rows := h4
  have hSc : (applyMuts (EditorState.init rows cols) gs).mapColsCount = cols := h5
  have hcur : (applyMuts (EditorState.init rows cols) gs).currentHistoryIndex =
      gs.length - 1 := by
    rw [h2]
    simp [EditorState.init]
  have hsync : histSync (applyMuts (EditorState.init rows cols) gs) gs := by
    refine ⟨by rw [hSr, hSc]; exact hh, by rw [hcur]; omega, ?_⟩
    intro g hg p _
    rw [hcur, get?_pred_length gs hne] at hg
    have hgeq : g = gs.getLast hne := (Option.some.inj hg).symm
    subst hgeq
    rw [h3, getLastD_of_ne_nil gs hne]
  obtain ⟨hsyncU, hcurU, hrU, hcU⟩ :=
    undo_iter (gs.length - 1) (applyMuts (EditorState.init rows cols) gs) hsync
      (by rw [hcur])
  have hcurU0 : (undo^[gs.length - 1]
      (applyMuts (EditorState.init rows cols) gs)).currentHistoryIndex = 0 := by
    rw [hcurU, hcur]
    omega
  have hsplit : gs.length = (gs.length - 1) + 1 := by omega
  have hU : undo^[gs.length] (applyMuts (EditorState.init rows cols) gs) =
      undo^[gs.length - 1] (applyMuts (EditorState.init rows cols) gs) := by
    have step0 : undo^[gs.length] (applyMuts (EditorState.init rows cols) gs) =
        undo^[(gs.length - 1) + 1] (applyMuts (EditorState.init rows cols) gs) := by
      rw [← hsplit]
    rw [step0, Function.iterate_succ_apply']
    exact undo_noop hcurU0
  have hrU' : (undo^[gs.length - 1]
      (applyMuts (EditorState.init rows cols) gs)).mapRowsCount = rows := by
    rw [hrU, hSr]
  have hcU' : (undo^[gs.length - 1]
      (applyMuts (EditorState.init rows cols) gs)).mapColsCount = cols := by
    rw [hcU, hSc]
  have hsprU : ∀ p : Pos, p.row < rows → p.col < cols →
      spriteView ((undo^[gs.length]
          (applyMuts (EditorState.init rows cols) gs)).grid p) =
        spriteView (gs.head hne p) := by
    intro p hr hc
    rw [hU]
    exact hsyncU.2.2 (gs.head hne)
      (by rw [hcurU0, get?_zero_of_ne_nil gs hne]) p
      ⟨by rw [hrU']; exact hr, by rw [hcU']; exact hc⟩
  obtain ⟨hsyncR, hcurR, hrR, hcR⟩ :=
    redo_iter (gs.length - 1)
      (undo^[gs.length - 1] (applyMuts (EditorState.init rows cols) gs)) hsyncU
      (by rw [hcurU0]; omega)
  have hcurR' : (redo^[gs.length - 1] (undo^[gs.length - 1]
      (applyMuts (EditorState.init rows cols) gs))).currentHistoryIndex =
      gs.length - 1 := by
    rw [hcurR, hcurU0]
    omega
  have hR : redo^[gs.length] (undo^[gs.length]
      (applyMuts (EditorState.init rows cols) gs)) =
      redo^[gs.length - 1] (undo^[gs.length - 1]
        (applyMuts (EditorState.init rows cols) gs)) := by
    have step1 : redo^[gs.length]
        (undo^[gs.length - 1] (applyMuts (EditorState.init rows cols) gs)) =
        redo^[(gs.length - 1) + 1]
          (undo^[gs.length - 1] (applyMuts (EditorState.init rows cols) gs)) := by
      rw [← hsplit]
    rw [hU, step1, Function.iterate_succ_apply']
    apply redo_noop
    rw [hcurR']
    have hlenR : (redo^[gs.length - 1] (undo^[gs.length - 1]
        (applyMuts (EditorState.init rows cols) gs))).history.length =
        gs.length := by
      rw [hsyncR.1, List.length_map]
    rw [hlenR]
    omega
  refine ⟨by rw [hh, List.length_map], by rw [hU]; exact hcurU0, hsprU,
    by rw [hR]; exact hcurR', ?_⟩
  intro p hr hc
  rw [hR]
  exact hsyncR.2.2 (gs.getLast hne)
    (by rw [hcurR', get?_pred_length gs hne]) p
    ⟨by rw [hrR, hrU']; exact hr, by rw [hcR, hcU']; exact hc⟩

/-- Witness for C1 (amended) with a single mutation on a 1-by-1 grid. -/
theorem undo_stops_at_first_mutation_redo_restores_final_witness :
    (applyMuts (EditorState.init 1 1)
        [fun _ => ⟨"url(sprites.png)", "-1px -1px", false⟩]).history.length = 1 ∧
      spriteView ((undo^[1] (applyMuts (EditorState.init 1 1)
          [fun _ => ⟨"url(sprites.png)", "-1px -1px", false⟩])).grid ⟨0, 0⟩) =
        ("url(sprites.png)", "-1px -1px") :=
  ⟨(undo_stops_at_first_mutation_redo_restores_final 1 1
      [fun _ => ⟨"url(sprites.png)", "-1px -1px", false⟩] (by simp)).1,
    (undo_stops_at_first_mutation_redo_restores_final 1 1
      [fun _ => ⟨"url(sprites.png)", "-1px -1px", false⟩] (by simp)).2.2.1
      ⟨0, 0⟩ (by decide) (by decide)⟩

end MapEditor
